import Mathlib

/-!
# The C0 virtual machine (`src/c0vm.c`)

A shallow embedding of `execute`, the dispatch loop of the C0 bytecode
interpreter, followed by theorems about its opcode handlers.

Conventions of the embedding.

* A C `int` is a Lean `Int` in the range `[-2^31, 2^31)`; every `int`
  operation of the source is followed by an explicit reduction `wrap32`
  (the interpreter is built with wrapping signed arithmetic).
* `size_t pc` is a `Nat`; the branch handlers add a converted `int16_t`
  to it, which is reduced modulo `2^64`.
* The operand stack is a list whose head is the top of the stack.
* The C heap is a list of allocations; a pointer is `NULL`, an offset into
  one allocation, or an offset into the string pool of the image.
* Every step yields an `Outcome`: the next state, the value returned by
  `execute`, a trap (the `c0_*_error` functions and the invalid opcode
  exit never return), `abort` for a failed `assert` or allocation, and
  `undefined` where the C source has no defined behaviour (popping an
  empty stack, reading outside an object, a value of the wrong kind).
-/

namespace C0VM

/-! ## 32-bit integers -/

/-- The constant `INT_MIN` of `<limits.h>` for a 32-bit `int`. -/
def INT_MIN : Int := -2147483648

/-- The constant `INT_MAX` of `<limits.h>` for a 32-bit `int`. -/
def INT_MAX : Int := 2147483647

/-- Membership in the range of a 32-bit `int`. -/
def isI32 (x : Int) : Prop := -2147483648 ≤ x ∧ x ≤ 2147483647

instance (x : Int) : Decidable (isI32 x) := by unfold isI32; infer_instance

/-- Two's-complement reading of an arbitrary integer as a 32-bit `int`. -/
def wrap32 (z : Int) : Int := (z + 2147483648) % 4294967296 - 2147483648

/-- The 32-bit pattern (an `unsigned`) that represents an `int`. -/
def toU32 (x : Int) : Nat := (x % 4294967296).toNat

/-- The `int` represented by a 32-bit pattern. -/
def ofU32 (u : Nat) : Int :=
  if u % 4294967296 < 2147483648 then ((u % 4294967296 : Nat) : Int)
  else ((u % 4294967296 : Nat) : Int) - 4294967296

/-- C `x / y` on `int`: the quotient truncated toward zero. -/
def c_div (x y : Int) : Int := wrap32 (Int.tdiv x y)

/-- C `x % y` on `int`: the remainder of the truncated division. -/
def c_rem (x y : Int) : Int := wrap32 (Int.tmod x y)

/-- C `x & y` on `int`: computed on the 32-bit patterns. -/
def c_and (x y : Int) : Int := ofU32 (toU32 x &&& toU32 y)

/-- C `x | y` on `int`: computed on the 32-bit patterns. -/
def c_or (x y : Int) : Int := ofU32 (toU32 x ||| toU32 y)

/-- C `x ^ y` on `int`: computed on the 32-bit patterns. -/
def c_xor (x y : Int) : Int := ofU32 (toU32 x ^^^ toU32 y)

/-- C `x << y` on `int` for `0 <= y < 32`: the pattern of `x` moved left by
`y` places, the places that leave the 32-bit word being dropped. -/
def c_shl (x y : Int) : Int := ofU32 (toU32 x <<< y.toNat)

/-- C `x >> y` on `int` for `0 <= y < 32`: the pattern of `x` moved right by
`y` places, the vacated high places being filled with the sign bit. -/
def c_shr (x y : Int) : Int :=
  if x < 0 then
    ofU32 (toU32 x >>> y.toNat ||| (4294967296 - (1 <<< (32 - y.toNat))))
  else ofU32 (toU32 x >>> y.toNat)

/-- The cast `(byte)P[pc]` of an unsigned byte to `int8_t`, widened to `int`. -/
def sext8 (b : Nat) : Int :=
  if b % 256 < 128 then ((b % 256 : Nat) : Int) else ((b % 256 : Nat) : Int) - 256

/-- The cast `(int16_t)v` of a 16-bit pattern, widened to `int`. -/
def sext16 (v : Nat) : Int :=
  if v % 65536 < 32768 then ((v % 65536 : Nat) : Int) else ((v % 65536 : Nat) : Int) - 65536

/-- The big-endian two-byte immediate `(c1 << 8) | c2`. -/
def imm16 (c1 c2 : Nat) : Nat := (c1 <<< 8) ||| c2

/-- The assignment `pc = pc + (int16_t)d` on a `size_t`: the signed
displacement is converted to `size_t` and the sum is reduced modulo `2^64`. -/
def jump (pc : Nat) (d : Int) : Nat := (((pc : Int) + d) % 18446744073709551616).toNat

/-! ## Values, heap and machine state -/

/-- A C pointer held by the machine. -/
inductive c0_ptr where
  | null
  | cell (block : Nat) (off : Int)
  | string_pool (off : Int)
  deriving DecidableEq, Repr

/-- Modelled from the spec: the type `c0_value` of lib/c0vm.h, a tagged value
that is either a 32-bit signed integer or a pointer. -/
inductive c0_value where
  | int (i : Int)
  | ptr (p : c0_ptr)
  deriving DecidableEq, Repr

/-- Modelled from the spec: `int2val` of lib/c0vm.h. -/
def int2val (i : Int) : c0_value := c0_value.int i

/-- Modelled from the spec: `ptr2val` of lib/c0vm.h. -/
def ptr2val (p : c0_ptr) : c0_value := c0_value.ptr p

/-- Modelled from the spec: `val2int` of lib/c0vm.h, defined on the integer
variant only. -/
def val2int : c0_value → Option Int
  | c0_value.int i => some i
  | c0_value.ptr _ => none

/-- Modelled from the spec: `val2ptr` of lib/c0vm.h, defined on the pointer
variant only. -/
def val2ptr : c0_value → Option c0_ptr
  | c0_value.ptr p => some p
  | c0_value.int _ => none

/-- Modelled from the spec: `val_equal` of lib/c0vm.h; it holds when both
values are integers with equal payloads or both are pointers to the same
address. -/
def val_equal (v1 v2 : c0_value) : Bool :=
  match v1, v2 with
  | c0_value.int a, c0_value.int b => decide (a = b)
  | c0_value.ptr p, c0_value.ptr q => decide (p = q)
  | _, _ => false

/-- Modelled from the spec: the value whose representation is all zero bytes
(what `xcalloc` leaves in a slot of `V`), the integer 0. -/
def zero_value : c0_value := c0_value.int 0

/-- One byte of heap memory: a plain byte, or the `k`-th byte of a stored
pointer. -/
inductive mem_byte where
  | byte (b : Nat)
  | ptr_part (p : c0_ptr) (k : Nat)
  deriving DecidableEq, Repr

/-- Modelled from the spec: an allocation is a raw buffer of bytes (`NEW`, and
the element buffer of an array), or the array header `c0_array` of
lib/c0vm.h with its fields `count`, `elt_size` and `elems`. -/
inductive heap_obj where
  | raw (bytes : List mem_byte)
  | array (count : Int) (elt_size : Int) (elems : c0_ptr)
  deriving DecidableEq, Repr

/-- The heap: the allocations made so far, in order. -/
abbrev Heap := List heap_obj

/-- The struct `frame_info` of the source. -/
structure frame where
  S : List c0_value
  P : List Nat
  pc : Nat
  V : List (Option c0_value)
  deriving DecidableEq, Repr

/-- The variables of `execute`: operand stack `S`, code `P`, program counter
`pc`, locals `V` (a slot is `none` while uninitialised), the call stack, and
the heap. -/
structure State where
  S : List c0_value
  P : List Nat
  pc : Nat
  V : List (Option c0_value)
  callStack : List frame
  heap : Heap
  deriving DecidableEq, Repr

/-- Modelled from the spec: the struct `function_info` of lib/c0vm.h, an entry
of the function pool. -/
structure function_info where
  num_args : Nat
  num_vars : Nat
  code : List Nat
  deriving DecidableEq, Repr

/-- Modelled from the spec: the struct `native_info` of lib/c0vm.h, an entry
of the native pool. -/
structure native_info where
  num_args : Nat
  function_table_index : Nat
  deriving DecidableEq, Repr

/-- Modelled from the spec: the struct `bc0_file` of lib/c0vm.h, the parsed
program image. -/
structure bc0_file where
  int_pool : List Int
  string_pool : List Nat
  function_pool : List function_info
  native_pool : List native_info
  deriving DecidableEq, Repr

/-- Modelled from the spec: the five terminating conditions of the trap
module.  The functions `c0_arith_error`, `c0_memory_error`,
`c0_assertion_failure` and `c0_user_error` of lib/c0vm_abort.h, and the
invalid opcode exit of `execute`, end the process and never return. -/
inductive Trap where
  | arith (msg : String)
  | memory (msg : String)
  | assertion (msg : c0_ptr)
  | user (msg : c0_ptr)
  | invalid_opcode (op : Nat)
  deriving DecidableEq, Repr

/-- What one iteration of the dispatch loop does. -/
inductive Outcome where
  | next (s : State)
  | ret (v : Int)
  | trap (t : Trap)
  | abort
  | undefined
  deriving DecidableEq, Repr

/-- Modelled from the spec: a host function of `native_function_table`; it
receives the argument vector and the heap and yields a value and a heap, or
traps. -/
abbrev native_fn := List c0_value → Heap → Except Trap (c0_value × Heap)

/-- Modelled from the spec: the table `native_function_table` of
lib/c0vm_c0ffi.h, a lookup from `function_table_index` to a host function. -/
abbrev native_table := Nat → Option native_fn

/-! ## Typed access to heap memory

An `int` occupies 4 bytes, least significant first, and a pointer 8 bytes. -/

/-- The `n` bytes of a buffer that start at offset `off`, when they lie
inside the buffer. -/
def read_bytes (bytes : List mem_byte) (off : Int) (n : Nat) : Option (List mem_byte) :=
  if 0 ≤ off ∧ off.toNat + n ≤ bytes.length then some ((bytes.drop off.toNat).take n)
  else none

/-- The buffer with the bytes from offset `off` on replaced by `new`, when
they lie inside the buffer. -/
def write_bytes (bytes : List mem_byte) (off : Int) (new : List mem_byte) :
    Option (List mem_byte) :=
  if 0 ≤ off ∧ off.toNat + new.length ≤ bytes.length then
    some (bytes.take off.toNat ++ new ++ bytes.drop (off.toNat + new.length))
  else none

/-- A read of `n` bytes through a pointer. -/
def load (bc0 : bc0_file) (h : Heap) (p : c0_ptr) (n : Nat) : Option (List mem_byte) :=
  match p with
  | c0_ptr.null => none
  | c0_ptr.cell b off =>
    match h[b]? with
    | some (heap_obj.raw bytes) => read_bytes bytes off n
    | _ => none
  | c0_ptr.string_pool off => read_bytes (bc0.string_pool.map mem_byte.byte) off n

/-- A write of the bytes `new` through a pointer; the string pool is
read-only. -/
def store (h : Heap) (p : c0_ptr) (new : List mem_byte) : Option Heap :=
  match p with
  | c0_ptr.cell b off =>
    match h[b]? with
    | some (heap_obj.raw bytes) =>
      match write_bytes bytes off new with
      | some bytes' => some (h.set b (heap_obj.raw bytes'))
      | none => none
    | _ => none
  | _ => none

/-- The `int` stored in four bytes. -/
def int_of_bytes : List mem_byte → Option Int
  | [mem_byte.byte b0, mem_byte.byte b1, mem_byte.byte b2, mem_byte.byte b3] =>
    some (ofU32 (b0 + 256 * b1 + 65536 * b2 + 16777216 * b3))
  | _ => none

/-- The four bytes of an `int`. -/
def bytes_of_int (w : Int) : List mem_byte :=
  [mem_byte.byte (toU32 w % 256), mem_byte.byte (toU32 w / 256 % 256),
   mem_byte.byte (toU32 w / 65536 % 256), mem_byte.byte (toU32 w / 16777216 % 256)]

/-- The eight bytes of a pointer; `NULL` is all zero bytes. -/
def bytes_of_ptr (p : c0_ptr) : List mem_byte :=
  match p with
  | c0_ptr.null => List.replicate 8 (mem_byte.byte 0)
  | q => (List.range 8).map (mem_byte.ptr_part q)

/-- The pointer stored in eight bytes. -/
def ptr_of_bytes (bs : List mem_byte) : Option c0_ptr :=
  if bs = List.replicate 8 (mem_byte.byte 0) then some c0_ptr.null
  else
    match bs with
    | mem_byte.ptr_part p _ :: _ => if bs = bytes_of_ptr p then some p else none
    | _ => none

/-- Pointer arithmetic `(char*)p + k`. -/
def ptr_add (p : c0_ptr) (k : Int) : c0_ptr :=
  match p with
  | c0_ptr.null => c0_ptr.null
  | c0_ptr.cell b off => c0_ptr.cell b (off + k)
  | c0_ptr.string_pool off => c0_ptr.string_pool (off + k)

/-! ## Opcodes -/

/-- The instructions named by the `case` labels of `execute`. -/
inductive Opcode where
  | POP | DUP | SWAP | RETURN
  | IADD | ISUB | IMUL | IDIV | IREM | IAND | IOR | IXOR | ISHR | ISHL
  | BIPUSH | ILDC | ALDC | ACONST_NULL
  | VLOAD | VSTORE
  | ATHROW | ASSERT
  | NOP | IF_CMPEQ | IF_CMPNE | IF_ICMPLT | IF_ICMPGE | IF_ICMPGT | IF_ICMPLE | GOTO
  | INVOKESTATIC | INVOKENATIVE
  | NEW | IMLOAD | IMSTORE | AMLOAD | AMSTORE | CMLOAD | CMSTORE | AADDF
  | NEWARRAY | ARRAYLENGTH | AADDS
  | CHECKTAG | HASTAG | ADDTAG | ADDROF_STATIC | ADDROF_NATIVE | INVOKEDYNAMIC
  deriving DecidableEq, Repr

/-- Modelled from the spec: the numeric opcode values of `enum instructions`
in lib/c0vm.h, those of the C0VM reference. -/
def Opcode.code : Opcode → Nat
  | .NOP => 0x00 | .ACONST_NULL => 0x01 | .BIPUSH => 0x10 | .ILDC => 0x13
  | .ALDC => 0x14 | .VLOAD => 0x15 | .ADDROF_STATIC => 0x16 | .ADDROF_NATIVE => 0x17
  | .IMLOAD => 0x2E | .AMLOAD => 0x2F | .CMLOAD => 0x34 | .VSTORE => 0x36
  | .IMSTORE => 0x4E | .AMSTORE => 0x4F | .CMSTORE => 0x55 | .POP => 0x57
  | .DUP => 0x59 | .SWAP => 0x5F | .IADD => 0x60 | .AADDF => 0x62 | .AADDS => 0x63
  | .ISUB => 0x64 | .IMUL => 0x68 | .IDIV => 0x6C | .IREM => 0x70 | .ISHL => 0x78
  | .ISHR => 0x7A | .IAND => 0x7E | .IOR => 0x80 | .IXOR => 0x82
  | .IF_CMPEQ => 0x9F | .IF_CMPNE => 0xA0 | .IF_ICMPLT => 0xA1 | .IF_ICMPGE => 0xA2
  | .IF_ICMPGT => 0xA3 | .IF_ICMPLE => 0xA4 | .GOTO => 0xA7 | .RETURN => 0xB0
  | .INVOKEDYNAMIC => 0xB6 | .INVOKENATIVE => 0xB7 | .INVOKESTATIC => 0xB8
  | .NEW => 0xBB | .NEWARRAY => 0xBC | .ARRAYLENGTH => 0xBE | .ATHROW => 0xBF
  | .CHECKTAG => 0xC0 | .HASTAG => 0xC1 | .ADDTAG => 0xC2 | .ASSERT => 0xCF

/-- Every opcode, in the order of the `case` labels. -/
def Opcode.all : List Opcode :=
  [.POP, .DUP, .SWAP, .RETURN, .IADD, .ISUB, .IMUL, .IDIV, .IREM, .IAND, .IOR, .IXOR,
   .ISHR, .ISHL, .BIPUSH, .ILDC, .ALDC, .ACONST_NULL, .VLOAD, .VSTORE, .ATHROW, .ASSERT,
   .NOP, .IF_CMPEQ, .IF_CMPNE, .IF_ICMPLT, .IF_ICMPGE, .IF_ICMPGT, .IF_ICMPLE, .GOTO,
   .INVOKESTATIC, .INVOKENATIVE, .NEW, .IMLOAD, .IMSTORE, .AMLOAD, .AMSTORE, .CMLOAD,
   .CMSTORE, .AADDF, .NEWARRAY, .ARRAYLENGTH, .AADDS, .CHECKTAG, .HASTAG, .ADDTAG,
   .ADDROF_STATIC, .ADDROF_NATIVE, .INVOKEDYNAMIC]

/-- The `case` label, if any, that the byte `b` selects in `switch (P[pc])`. -/
def decode (b : Nat) : Option Opcode := Opcode.all.find? (fun op => op.code == b)

/-! ## Operand stack helpers -/

/-- Modelled from the spec: the function `c0v_pop` of lib/c0v_stack.h, which
removes the top of a non-empty stack. -/
def c0v_pop : List c0_value → Option (c0_value × List c0_value)
  | [] => none
  | v :: S => some (v, S)

/-- Modelled from the spec: the function `c0v_push` of lib/c0v_stack.h. -/
def c0v_push (S : List c0_value) (v : c0_value) : List c0_value := v :: S

/-- Continue with `c0v_pop(S)`. -/
def pop_val (S : List c0_value) (k : c0_value → List c0_value → Outcome) : Outcome :=
  match c0v_pop S with
  | none => Outcome.undefined
  | some (v, S') => k v S'

/-- Continue with `val2int(c0v_pop(S))`. -/
def pop_int (S : List c0_value) (k : Int → List c0_value → Outcome) : Outcome :=
  pop_val S fun v S' =>
    match val2int v with
    | none => Outcome.undefined
    | some i => k i S'

/-- Continue with `val2ptr(c0v_pop(S))`. -/
def pop_ptr (S : List c0_value) (k : c0_ptr → List c0_value → Outcome) : Outcome :=
  pop_val S fun v S' =>
    match val2ptr v with
    | none => Outcome.undefined
    | some p => k p S'

/-- Continue with the code byte `P[i]`. -/
def read_code (P : List Nat) (i : Nat) (k : Nat → Outcome) : Outcome :=
  match P[i]? with
  | none => Outcome.undefined
  | some b => k b

/-- The argument loop of `INVOKESTATIC` and `INVOKENATIVE`:
`while (num_args > 0) { V[num_args-1] = c0v_pop(S); num_args -= 1; }`. -/
def pop_args : Nat → List c0_value → List (Option c0_value) →
    Option (List c0_value × List (Option c0_value))
  | 0, S, V => some (S, V)
  | k + 1, S, V =>
    match c0v_pop S with
    | none => none
    | some (v, S') => if k < V.length then pop_args k S' (V.set k (some v)) else none

/-! ## The dispatch loop -/

/-- The body of a conditional branch once its operands are popped: the jump
`pc = pc + (int16_t)(o1<<8 | o2)` when `taken`, `pc += 3` otherwise. -/
def branch (s : State) (S' : List c0_value) (taken : Bool) : Outcome :=
  if taken then
    read_code s.P (s.pc + 1) fun o1 =>
    read_code s.P (s.pc + 2) fun o2 =>
    Outcome.next { s with S := S', pc := jump s.pc (sext16 (imm16 o1 o2)) }
  else Outcome.next { s with S := S', pc := s.pc + 3 }

/-- The handler that `switch (P[pc])` selects for an opcode: one `case` of
`execute`. -/
def exec (natives : native_table) (bc0 : bc0_file) (op : Opcode) (s : State) : Outcome :=
  match op with
  | .POP =>
    pop_val s.S fun _ S1 => Outcome.next { s with pc := s.pc + 1, S := S1 }
  | .DUP =>
    pop_val s.S fun v S1 =>
    Outcome.next { s with pc := s.pc + 1, S := c0v_push (c0v_push S1 v) v }
  | .SWAP =>
    pop_val s.S fun y S1 =>
    pop_val S1 fun x S2 =>
    Outcome.next { s with pc := s.pc + 1, S := c0v_push (c0v_push S2 y) x }
  | .RETURN =>
    pop_val s.S fun retval S1 =>
    if S1 ≠ [] then Outcome.abort
    else
      match s.callStack with
      | [] =>
        match val2int retval with
        | none => Outcome.undefined
        | some r => Outcome.ret r
      | f :: rest =>
        Outcome.next { s with S := c0v_push f.S retval, P := f.P, V := f.V, pc := f.pc,
                              callStack := rest }
  | .IADD =>
    pop_int s.S fun y S1 =>
    pop_int S1 fun x S2 =>
    Outcome.next { s with pc := s.pc + 1, S := c0v_push S2 (int2val (wrap32 (x + y))) }
  | .ISUB =>
    pop_int s.S fun y S1 =>
    pop_int S1 fun x S2 =>
    Outcome.next { s with pc := s.pc + 1, S := c0v_push S2 (int2val (wrap32 (x - y))) }
  | .IMUL =>
    pop_int s.S fun y S1 =>
    pop_int S1 fun x S2 =>
    Outcome.next { s with pc := s.pc + 1, S := c0v_push S2 (int2val (wrap32 (x * y))) }
  | .IDIV =>
    pop_int s.S fun y S1 =>
    if y = 0 then Outcome.trap (Trap.arith "Division by 0")
    else
      pop_int S1 fun x S2 =>
      if x = INT_MIN ∧ y = -1 then Outcome.trap (Trap.arith "Division overflow")
      else Outcome.next { s with pc := s.pc + 1, S := c0v_push S2 (int2val (c_div x y)) }
  | .IREM =>
    pop_int s.S fun y S1 =>
    if y = 0 then Outcome.trap (Trap.arith "Mod by 0")
    else
      pop_int S1 fun x S2 =>
      if x = INT_MIN ∧ y = -1 then Outcome.trap (Trap.arith "Modular overflow")
      else Outcome.next { s with pc := s.pc + 1, S := c0v_push S2 (int2val (c_rem x y)) }
  | .IAND =>
    pop_int s.S fun y S1 =>
    pop_int S1 fun x S2 =>
    Outcome.next { s with pc := s.pc + 1, S := c0v_push S2 (int2val (c_and x y)) }
  | .IOR =>
    pop_int s.S fun y S1 =>
    pop_int S1 fun x S2 =>
    Outcome.next { s with pc := s.pc + 1, S := c0v_push S2 (int2val (c_or x y)) }
  | .IXOR =>
    pop_int s.S fun y S1 =>
    pop_int S1 fun x S2 =>
    Outcome.next { s with pc := s.pc + 1, S := c0v_push S2 (int2val (c_xor x y)) }
  | .ISHR =>
    pop_int s.S fun y S1 =>
    pop_int S1 fun x S2 =>
    if ¬ (y ≥ 32 ∨ y < 0) then
      Outcome.next { s with pc := s.pc + 1, S := c0v_push S2 (int2val (c_shr x y)) }
    else Outcome.trap (Trap.arith "shifting by an invalid amount")
  | .ISHL =>
    pop_int s.S fun y S1 =>
    pop_int S1 fun x S2 =>
    if ¬ (y ≥ 32 ∨ y < 0) then
      Outcome.next { s with pc := s.pc + 1, S := c0v_push S2 (int2val (c_shl x y)) }
    else Outcome.trap (Trap.arith "shifting by an invalid amount")
  | .BIPUSH =>
    read_code s.P (s.pc + 1) fun b =>
    Outcome.next { s with pc := s.pc + 2, S := c0v_push s.S (int2val (sext8 b)) }
  | .ILDC =>
    read_code s.P (s.pc + 1) fun c1 =>
    read_code s.P (s.pc + 2) fun c2 =>
    match bc0.int_pool[imm16 c1 c2]? with
    | none => Outcome.undefined
    | some x => Outcome.next { s with pc := s.pc + 3, S := c0v_push s.S (int2val (wrap32 x)) }
  | .ALDC =>
    read_code s.P (s.pc + 1) fun c1 =>
    read_code s.P (s.pc + 2) fun c2 =>
    Outcome.next { s with pc := s.pc + 3,
                          S := c0v_push s.S (ptr2val (c0_ptr.string_pool (imm16 c1 c2))) }
  | .ACONST_NULL =>
    Outcome.next { s with pc := s.pc + 1, S := c0v_push s.S (ptr2val c0_ptr.null) }
  | .VLOAD =>
    read_code s.P (s.pc + 1) fun i =>
    match s.V[i]? with
    | some (some v) => Outcome.next { s with pc := s.pc + 2, S := c0v_push s.S v }
    | _ => Outcome.undefined
  | .VSTORE =>
    pop_val s.S fun v S1 =>
    read_code s.P (s.pc + 1) fun i =>
    if i < s.V.length then
      Outcome.next { s with pc := s.pc + 2, S := S1, V := s.V.set i (some v) }
    else Outcome.undefined
  | .ATHROW =>
    pop_ptr s.S fun a _ => Outcome.trap (Trap.user a)
  | .ASSERT =>
    pop_ptr s.S fun a S1 =>
    pop_int S1 fun x S2 =>
    if x = 0 then Outcome.trap (Trap.assertion a)
    else Outcome.next { s with pc := s.pc + 1, S := S2 }
  | .NOP => Outcome.next { s with pc := s.pc + 1 }
  | .IF_CMPEQ =>
    pop_val s.S fun v2 S1 =>
    pop_val S1 fun v1 S2 =>
    branch s S2 (val_equal v1 v2)
  | .IF_CMPNE =>
    pop_val s.S fun v2 S1 =>
    pop_val S1 fun v1 S2 =>
    branch s S2 (!val_equal v1 v2)
  | .IF_ICMPLT =>
    pop_int s.S fun y S1 =>
    pop_int S1 fun x S2 =>
    branch s S2 (decide (x < y))
  | .IF_ICMPGE =>
    pop_int s.S fun y S1 =>
    pop_int S1 fun x S2 =>
    branch s S2 (decide (x ≥ y))
  | .IF_ICMPGT =>
    pop_int s.S fun y S1 =>
    pop_int S1 fun x S2 =>
    branch s S2 (decide (x > y))
  | .IF_ICMPLE =>
    pop_int s.S fun y S1 =>
    pop_int S1 fun x S2 =>
    branch s S2 (decide (x ≤ y))
  | .GOTO =>
    read_code s.P (s.pc + 1) fun o1 =>
    read_code s.P (s.pc + 2) fun o2 =>
    Outcome.next { s with pc := jump s.pc (sext16 (imm16 o1 o2)) }
  | .INVOKESTATIC =>
    read_code s.P (s.pc + 1) fun c1 =>
    read_code s.P (s.pc + 2) fun c2 =>
    match bc0.function_pool[imm16 c1 c2]? with
    | none => Outcome.undefined
    | some g =>
      match pop_args g.num_args s.S (List.replicate g.num_vars none) with
      | none => Outcome.undefined
      | some (S1, V1) =>
        Outcome.next { s with S := [], P := g.code, pc := 0, V := V1,
                              callStack := { S := S1, P := s.P, pc := s.pc + 3, V := s.V }
                                            :: s.callStack }
  | .INVOKENATIVE =>
    read_code s.P (s.pc + 1) fun c1 =>
    read_code s.P (s.pc + 2) fun c2 =>
    match bc0.native_pool[imm16 c1 c2]? with
    | none => Outcome.undefined
    | some n =>
      match pop_args n.num_args s.S (List.replicate n.num_args none) with
      | none => Outcome.undefined
      | some (S1, x) =>
        match natives n.function_table_index with
        | none => Outcome.undefined
        | some nat =>
          match nat (x.filterMap id) s.heap with
          | Except.error t => Outcome.trap t
          | Except.ok (final, h1) =>
            Outcome.next { s with pc := s.pc + 3, S := c0v_push S1 final, heap := h1 }
  | .NEW =>
    read_code s.P (s.pc + 1) fun sz =>
    Outcome.next { s with pc := s.pc + 2,
                          S := c0v_push s.S (ptr2val (c0_ptr.cell s.heap.length 0)),
                          heap := s.heap ++ [heap_obj.raw (List.replicate sz (mem_byte.byte 0))] }
  | .IMLOAD =>
    pop_ptr s.S fun check S1 =>
    if check = c0_ptr.null then Outcome.trap (Trap.memory "NULL pointer")
    else
      match (load bc0 s.heap check 4).bind int_of_bytes with
      | none => Outcome.undefined
      | some jawn => Outcome.next { s with pc := s.pc + 1, S := c0v_push S1 (int2val jawn) }
  | .IMSTORE =>
    pop_int s.S fun w S1 =>
    pop_ptr S1 fun a S2 =>
    if a = c0_ptr.null then Outcome.trap (Trap.memory "NULL pointer")
    else
      match store s.heap a (bytes_of_int w) with
      | none => Outcome.undefined
      | some h1 => Outcome.next { s with pc := s.pc + 1, S := S2, heap := h1 }
  | .AMLOAD =>
    pop_ptr s.S fun a S1 =>
    if a = c0_ptr.null then Outcome.trap (Trap.memory "NULL pointer")
    else
      match (load bc0 s.heap a 8).bind ptr_of_bytes with
      | none => Outcome.undefined
      | some q => Outcome.next { s with pc := s.pc + 1, S := c0v_push S1 (ptr2val q) }
  | .AMSTORE =>
    pop_ptr s.S fun b S1 =>
    pop_ptr S1 fun a S2 =>
    if a = c0_ptr.null then Outcome.trap (Trap.memory "NULL pointer")
    else
      match store s.heap a (bytes_of_ptr b) with
      | none => Outcome.undefined
      | some h1 => Outcome.next { s with pc := s.pc + 1, S := S2, heap := h1 }
  | .CMLOAD =>
    pop_ptr s.S fun a S1 =>
    if a = c0_ptr.null then Outcome.trap (Trap.memory "NULL pointer")
    else
      match (load bc0 s.heap a 4).bind int_of_bytes with
      | none => Outcome.undefined
      | some w => Outcome.next { s with pc := s.pc + 1, S := c0v_push S1 (int2val w) }
  | .CMSTORE =>
    pop_int s.S fun x S1 =>
    pop_ptr S1 fun a S2 =>
    if a = c0_ptr.null then Outcome.trap (Trap.memory "NULL pointer")
    else
      match store s.heap a [mem_byte.byte (toU32 (c_and x 0x7F) % 256)] with
      | none => Outcome.undefined
      | some h1 => Outcome.next { s with pc := s.pc + 1, S := S2, heap := h1 }
  | .AADDF =>
    read_code s.P (s.pc + 1) fun f =>
    pop_ptr s.S fun a S1 =>
    if a = c0_ptr.null then Outcome.trap (Trap.memory "NULL pointer")
    else Outcome.next { s with pc := s.pc + 2, S := c0v_push S1 (ptr2val (ptr_add a f)) }
  | .NEWARRAY =>
    read_code s.P (s.pc + 1) fun sz =>
    pop_int s.S fun n S1 =>
    if n < 0 then Outcome.trap (Trap.memory "n is negative")
    else if wrap32 ((sz : Int) * wrap32 (n + 1)) < 0 then Outcome.abort
    else
      Outcome.next { s with
        pc := s.pc + 2,
        S := c0v_push S1 (ptr2val (c0_ptr.cell s.heap.length 0)),
        heap := s.heap ++
          [heap_obj.array (wrap32 (n + 1)) sz (c0_ptr.cell (s.heap.length + 1) 0),
           heap_obj.raw (List.replicate (wrap32 ((sz : Int) * wrap32 (n + 1))).toNat
             (mem_byte.byte 0))] }
  | .ARRAYLENGTH =>
    pop_ptr s.S fun a S1 =>
    match a with
    | c0_ptr.cell b 0 =>
      match s.heap[b]? with
      | some (heap_obj.array count _ _) =>
        Outcome.next { s with pc := s.pc + 1, S := c0v_push S1 (int2val count) }
      | _ => Outcome.undefined
    | _ => Outcome.undefined
  | .AADDS =>
    pop_int s.S fun x S1 =>
    pop_ptr S1 fun a S2 =>
    if a = c0_ptr.null then Outcome.trap (Trap.memory "NULL pointer")
    else
      match a with
      | c0_ptr.cell b 0 =>
        match s.heap[b]? with
        | some (heap_obj.array count elt_size elems) =>
          if x < 0 ∨ x ≥ count then Outcome.trap (Trap.memory "out of bounds")
          else
            Outcome.next { s with pc := s.pc + 1,
                                  S := c0v_push S2 (ptr2val (ptr_add elems (wrap32 (x * elt_size)))) }
        | _ => Outcome.undefined
      | _ => Outcome.undefined
  | .CHECKTAG | .HASTAG | .ADDTAG | .ADDROF_STATIC | .ADDROF_NATIVE | .INVOKEDYNAMIC =>
    Outcome.trap (Trap.invalid_opcode op.code)

/-- One iteration of `while (true) { switch (P[pc]) ... }`. -/
def step (natives : native_table) (bc0 : bc0_file) (s : State) : Outcome :=
  match s.P[s.pc]? with
  | none => Outcome.undefined
  | some b =>
    match decode b with
    | some op => exec natives bc0 op s
    | none => Outcome.trap (Trap.invalid_opcode b)

/-- At most `fuel` iterations of the loop from `s`; `Outcome.next` means the
loop is still running after them. -/
def run (natives : native_table) (bc0 : bc0_file) : Nat → State → Outcome
  | 0, s => Outcome.next s
  | fuel + 1, s =>
    match step natives bc0 s with
    | Outcome.next s' => run natives bc0 fuel s'
    | o => o

/-- The variables of `execute` before the first iteration: function 0 of the
image, an empty stack, zeroed locals, an empty call stack. -/
def initial_state (bc0 : bc0_file) : Option State :=
  match bc0.function_pool[0]? with
  | none => none
  | some f =>
    some { S := [], P := f.code, pc := 0, V := List.replicate f.num_vars (some zero_value),
           callStack := [], heap := [] }

/-- The function `execute` of the source, run for at most `fuel` iterations. -/
def execute (natives : native_table) (bc0 : bc0_file) (fuel : Nat) : Outcome :=
  match initial_state bc0 with
  | none => Outcome.undefined
  | some s => run natives bc0 fuel s

/-! ## Observations on outcomes, and the scenario images -/

/-- Whether an outcome is a trap of any kind. -/
def Outcome.isTrap : Outcome → Bool
  | Outcome.trap _ => true
  | _ => false

/-- Whether an outcome is the arithmetic trap. -/
def Outcome.isArithTrap : Outcome → Bool
  | Outcome.trap (Trap.arith _) => true
  | _ => false

/-- Whether an outcome is the memory trap. -/
def Outcome.isMemoryTrap : Outcome → Bool
  | Outcome.trap (Trap.memory _) => true
  | _ => false

/-- Whether the loop goes on after the step. -/
def Outcome.isNext : Outcome → Bool
  | Outcome.next _ => true
  | _ => false

/-- An image whose only function is the entry function with body `code`. -/
def entry_image (int_pool : List Int) (string_pool : List Nat) (num_vars : Nat)
    (code : List Nat) : bc0_file :=
  { int_pool := int_pool, string_pool := string_pool,
    function_pool := [{ num_args := 0, num_vars := num_vars, code := code }],
    native_pool := [] }

/-- Scenario S3: `BIPUSH 1; BIPUSH 0; IDIV; RETURN`. -/
def S3_image : bc0_file := entry_image [] [] 0 [0x10, 1, 0x10, 0, 0x6C, 0xB0]

/-- Scenario S4: `ILDC` of `0x80000000`; `BIPUSH -1`; `IDIV`. -/
def S4_image : bc0_file := entry_image [-2147483648] [] 0 [0x13, 0, 0, 0x10, 0xFF, 0x6C]

/-- A native table without entries. -/
def no_natives : native_table := fun _ => none

/-- A state with the given operand stack and nothing else. -/
def stack_state (S : List c0_value) : State :=
  { S := S, P := [], pc := 0, V := [], callStack := [], heap := [] }

/-- Exactly `n` iterations of the loop from `s`, none of which stops it. -/
def steps (natives : native_table) (bc0 : bc0_file) : Nat → State → Option State
  | 0, s => some s
  | n + 1, s =>
    match step natives bc0 s with
    | Outcome.next s' => steps natives bc0 n s'
    | _ => none

/-- A caller and a callee: `main` is `BIPUSH 5; INVOKESTATIC 1; RETURN` and
function 1, with one argument and one local, is `VLOAD 0; RETURN`. -/
def call_image : bc0_file :=
  { int_pool := [], string_pool := [],
    function_pool :=
      [{ num_args := 0, num_vars := 0, code := [0x10, 5, 0xB8, 0, 1, 0xB0] },
       { num_args := 1, num_vars := 1, code := [0x15, 0, 0xB0] }],
    native_pool := [] }

/-- The state of `call_image` about to execute its `INVOKESTATIC`. -/
def call_state : State :=
  { S := [c0_value.int 5], P := [0x10, 5, 0xB8, 0, 1, 0xB0], pc := 2, V := [],
    callStack := [], heap := [] }

/-- The callee of `call_image` about to execute its `RETURN`. -/
def call_return_state : State :=
  { S := [c0_value.int 5], P := [0x15, 0, 0xB0], pc := 2, V := [some (c0_value.int 5)],
    callStack := [{ S := [], P := [0x10, 5, 0xB8, 0, 1, 0xB0], pc := 5, V := [] }],
    heap := [] }

/-- The body of `main` in scenario S5: `BIPUSH n; INVOKESTATIC 1; RETURN`. -/
def fact_main (n : Nat) : List Nat := [0x10, n, 0xB8, 0, 1, 0xB0]

/-- The body of `fact` in scenario S5:
```
 0: VLOAD 0          7: VLOAD 0         14: INVOKESTATIC 1
 2: BIPUSH 1         9: VLOAD 0         17: IMUL
 4: IF_ICMPLE +15   11: BIPUSH 1        18: RETURN
                    13: ISUB            19: BIPUSH 1
                                        21: RETURN
```
-/
def fact_code : List Nat :=
  [0x15, 0, 0x10, 1, 0xA4, 0, 15, 0x15, 0, 0x15, 0, 0x10, 1, 0x64, 0xB8, 0, 1, 0x68, 0xB0,
   0x10, 1, 0xB0]

/-- The two-function image of scenario S5, calling `fact(n)`. -/
def fact_image (n : Nat) : bc0_file :=
  { int_pool := [], string_pool := [],
    function_pool :=
      [{ num_args := 0, num_vars := 0, code := fact_main n },
       { num_args := 1, num_vars := 1, code := fact_code }],
    native_pool := [] }

/-- The number of iterations that `fact_image n` runs before the `RETURN`
of `main`. -/
def fact_steps (n : Nat) : Nat := if n ≤ 1 then 7 else 10 * n - 3

/-- The state of `fact_image n` when `main` is about to execute `RETURN`. -/
def fact_final (n : Nat) : State :=
  { S := [c0_value.int (Nat.factorial n)], P := fact_main n, pc := 5, V := [],
    callStack := [], heap := [] }

/-- Scenario S7: `BIPUSH 3; NEWARRAY 4; BIPUSH 3; AADDS`. -/
def S7_image : bc0_file := entry_image [] [] 0 [0x10, 3, 0xBC, 4, 0x10, 3, 0x63]

/-- The program `BIPUSH 3; NEWARRAY 4; ARRAYLENGTH; RETURN`. -/
def length_image : bc0_file := entry_image [] [] 0 [0x10, 3, 0xBC, 4, 0xBE, 0xB0]

/-- A state at offset 10 of a body that holds `GOTO 0xFF 0xFB` there. -/
def goto_state : State :=
  { S := [], P := List.replicate 10 0 ++ [0xA7, 0xFF, 0xFB], pc := 10, V := [],
    callStack := [], heap := [] }

/-- Scenario S8: `BIPUSH 0; ALDC "oops"; ASSERT`, the string pool holding
`"oops"` and its terminating zero byte. -/
def S8_image : bc0_file :=
  entry_image [] [0x6F, 0x6F, 0x70, 0x73, 0] 0 [0x10, 0, 0x14, 0, 0, 0xCF]

/-- The bytes of the C string that starts at offset `off` of a string pool,
up to its terminating zero byte. -/
def c_string (pool : List Nat) (off : Nat) : List Nat :=
  (pool.drop off).takeWhile (fun b => b != 0)

/-- The characters of a string as bytes. -/
def ascii (str : String) : List Nat := str.toList.map Char.toNat

/-- The entry body `BIPUSH a; RETURN` (scenario S1 for `a = 42`). -/
def push_image (a : Nat) : bc0_file := entry_image [] [] 0 [0x10, a, 0xB0]

/-- The entry body `BIPUSH a; BIPUSH b; IADD; RETURN` (scenario S2 for
`a = 5`, `b = 7`). -/
def add_image (a b : Nat) : bc0_file := entry_image [] [] 0 [0x10, a, 0x10, b, 0x60, 0xB0]

/-- The reserved extension opcodes, the `case` labels that fall through to
`default`. -/
def Opcode.reserved : List Opcode :=
  [.CHECKTAG, .HASTAG, .ADDTAG, .ADDROF_STATIC, .ADDROF_NATIVE, .INVOKEDYNAMIC]

/-- The opcode encoding table of the specification: the defined opcodes with
their instruction lengths. -/
def encoding_table : List (Opcode × Nat) :=
  [(.NOP, 1), (.POP, 1), (.DUP, 1), (.SWAP, 1),
   (.IADD, 1), (.ISUB, 1), (.IMUL, 1), (.IDIV, 1), (.IREM, 1),
   (.IAND, 1), (.IOR, 1), (.IXOR, 1), (.ISHL, 1), (.ISHR, 1),
   (.BIPUSH, 2), (.ILDC, 3), (.ALDC, 3), (.ACONST_NULL, 1),
   (.VLOAD, 2), (.VSTORE, 2), (.ATHROW, 1), (.ASSERT, 1), (.RETURN, 1),
   (.IF_CMPEQ, 3), (.IF_CMPNE, 3), (.IF_ICMPLT, 3), (.IF_ICMPLE, 3), (.IF_ICMPGT, 3),
   (.IF_ICMPGE, 3), (.GOTO, 3), (.INVOKESTATIC, 3), (.INVOKENATIVE, 3),
   (.NEW, 2), (.NEWARRAY, 2),
   (.IMLOAD, 1), (.IMSTORE, 1), (.AMLOAD, 1), (.AMSTORE, 1), (.CMLOAD, 1), (.CMSTORE, 1),
   (.AADDF, 2), (.ARRAYLENGTH, 1), (.AADDS, 1)]

/-- Whether a byte is the code of an opcode of the encoding table. -/
def is_defined_opcode (b : Nat) : Bool := encoding_table.any (fun e => e.1.code == b)

/-- The instruction length that the encoding table gives an opcode. -/
def instr_length (op : Opcode) : Option Nat :=
  (encoding_table.find? (fun e => e.1 == op)).map (fun e => e.2)

/-- Whether an outcome is the invalid-opcode failure. -/
def Outcome.isInvalidOpcode : Outcome → Bool
  | Outcome.trap (Trap.invalid_opcode _) => true
  | _ => false

/-- A native table whose functions never raise the invalid-opcode failure,
which belongs to the dispatch loop alone. -/
def natives_ok (natives : native_table) : Prop :=
  ∀ (idx : Nat) (f : native_fn) (args : List c0_value) (h : Heap) (b : Nat),
    natives idx = some f → f args h ≠ Except.error (Trap.invalid_opcode b)

/-- The opcodes whose handlers assign `pc` directly: the branch family,
`INVOKESTATIC` and `RETURN`. -/
def Opcode.assigns_pc : List Opcode :=
  [.IF_CMPEQ, .IF_CMPNE, .IF_ICMPLT, .IF_ICMPGE, .IF_ICMPGT, .IF_ICMPLE, .GOTO,
   .INVOKESTATIC, .RETURN]

/-- A call of a function with no argument and one local: `main` is
`INVOKESTATIC 1; RETURN` and function 1 is `VLOAD 0; RETURN`. -/
def local_image : bc0_file :=
  { int_pool := [], string_pool := [],
    function_pool :=
      [{ num_args := 0, num_vars := 0, code := [0xB8, 0, 1, 0xB0] },
       { num_args := 0, num_vars := 1, code := [0x15, 0, 0xB0] }],
    native_pool := [] }

/-- The entry body `VLOAD 0; RETURN` with one local. -/
def entry_local_image : bc0_file := entry_image [] [] 1 [0x15, 0, 0xB0]

/-- The program `NEW 4; DUP; BIPUSH 1; CMSTORE; DUP; AADDF 1; BIPUSH 2;
CMSTORE; CMLOAD; RETURN`: it stores the characters 1 and 2 in the first two
bytes of a cell and loads the first one. -/
def char_image : bc0_file :=
  entry_image [] [] 0
    [0xBB, 4, 0x59, 0x10, 1, 0x55, 0x59, 0x62, 1, 0x10, 2, 0x55, 0x34, 0xB0]

/-- The program `NEW 1; CMLOAD; RETURN`: a load from a cell of one byte. -/
def char_cell_image : bc0_file := entry_image [] [] 0 [0xBB, 1, 0x34, 0xB0]

/-- A state whose code is `GOTO 0 0` at offset 0. -/
def goto_self_state : State :=
  { S := [], P := [0xA7, 0, 0], pc := 0, V := [], callStack := [], heap := [] }

/-- A state with the single code byte `b` at offset 0. -/
def byte_code_state (b : Nat) : State :=
  { S := [], P := [b], pc := 0, V := [], callStack := [], heap := [] }

/-- A state whose code is `AADDF 8` at offset 0. -/
def aaddf_state : State :=
  { S := [], P := [0x62, 8], pc := 0, V := [], callStack := [], heap := [] }

/-- A state whose heap is one cell holding the byte `0xFF`. -/
def cell_state : State :=
  { S := [], P := [0x55], pc := 0, V := [], callStack := [],
    heap := [heap_obj.raw [mem_byte.byte 0xFF]] }

/-! # Theorems -/

/-! ## Auxiliary lemmas -/

@[simp]
theorem pop_val_cons (v : c0_value) (S : List c0_value)
    (k : c0_value → List c0_value → Outcome) : pop_val (v :: S) k = k v S := rfl

@[simp]
theorem pop_int_cons (i : Int) (S : List c0_value)
    (k : Int → List c0_value → Outcome) : pop_int (c0_value.int i :: S) k = k i S := rfl

@[simp]
theorem pop_ptr_cons (p : c0_ptr) (S : List c0_value)
    (k : c0_ptr → List c0_value → Outcome) : pop_ptr (c0_value.ptr p :: S) k = k p S := rfl

/-- Once the loop has stopped, more fuel does not change the outcome. -/
theorem run_stable (natives : native_table) (bc0 : bc0_file) (n k : Nat) (s : State)
    (h : (run natives bc0 n s).isNext = false) :
    run natives bc0 (n + k) s = run natives bc0 n s := by
  induction n generalizing s with
  | zero => simp [run, Outcome.isNext] at h
  | succ n ih =>
    rw [Nat.succ_add]
    simp only [run] at h ⊢
    cases hs : step natives bc0 s with
    | next s' => rw [hs] at h; simpa using ih s' h
    | ret v => rfl
    | trap t => rfl
    | abort => rfl
    | undefined => rfl

theorem wrap32_of_isI32 (z : Int) (h : isI32 z) : wrap32 z = z := by
  unfold isI32 at h; unfold wrap32; omega

theorem isI32_wrap32 (z : Int) : isI32 (wrap32 z) := by
  unfold isI32 wrap32; omega

theorem wrap32_congr (z : Int) : (wrap32 z - z) % 4294967296 = 0 := by
  unfold wrap32; omega

theorem isI32_ofU32 (u : Nat) : isI32 (ofU32 u) := by
  unfold isI32 ofU32; omega

theorem ofU32_eq_wrap32 (u : Nat) : ofU32 u = wrap32 (u : Int) := by
  unfold ofU32 wrap32; omega

theorem toU32_lt (x : Int) : toU32 x < 2 ^ 32 := by
  unfold toU32; omega

theorem wrap32_add_mul (a q : Int) : wrap32 (a + 4294967296 * q) = wrap32 a := by
  unfold wrap32
  have : a + 4294967296 * q + 2147483648 = (a + 2147483648) + 4294967296 * q := by ring
  rw [this, Int.add_mul_emod_self_left]

theorem toU32_spec (x : Int) :
    ((toU32 x : Nat) : Int) = x - 4294967296 * (x / 4294967296) := by
  unfold toU32; omega

/-! ### Truncated division -/

/-- The remainder of truncated division changes sign with the dividend. -/
theorem neg_tmod' (a b : Int) : (-a).tmod b = -(a.tmod b) := by
  rw [Int.tmod_def, Int.tmod_def, Int.neg_tdiv]; ring

/-- Division with remainder on the naturals, read in the integers. -/
theorem nat_trunc_facts (a b : Nat) (hb : b ≠ 0) :
    ((a / b : Nat) : Int) * b + ((a % b : Nat) : Int) = a ∧ a % b < b := by
  refine ⟨?_, Nat.mod_lt _ (Nat.pos_of_ne_zero hb)⟩
  have := Nat.div_add_mod a b
  have h2 : ((b * (a / b) + a % b : Nat) : Int) = (a : Int) := by rw [this]
  push_cast at h2 ⊢
  linarith [h2, mul_comm (b : Int) ((a : Int) / b)]

/-- Truncated division on the integers: magnitude, sign, and remainder. -/
theorem tdiv_tmod_facts (x y : Int) (hy : y ≠ 0) :
    (Int.tdiv x y).natAbs = x.natAbs / y.natAbs ∧
    0 ≤ Int.tdiv x y * x * y ∧
    x = Int.tdiv x y * y + Int.tmod x y ∧
    (Int.tmod x y).natAbs < y.natAbs ∧
    (Int.tmod x y = 0 ∨ (0 < Int.tmod x y ∧ 0 < x) ∨ (Int.tmod x y < 0 ∧ x < 0)) := by
  have hdiv : (Int.tdiv x y).natAbs = x.natAbs / y.natAbs := by
    rw [Int.natAbs_tdiv]; rfl
  have heq : x = Int.tdiv x y * y + Int.tmod x y := by
    have := Int.tdiv_add_tmod' x y
    linarith
  obtain ⟨a, rfl | rfl⟩ := Int.eq_nat_or_neg x <;> obtain ⟨b, rfl | rfl⟩ := Int.eq_nat_or_neg y
  all_goals
    have hb : b ≠ 0 := by rintro rfl; simp at hy
    have hbpos : (0 : Int) < b := by exact_mod_cast Nat.pos_of_ne_zero hb
    obtain ⟨h1, h2⟩ := nat_trunc_facts a b hb
    have h3 : (0 : Int) ≤ ((a / b : Nat) : Int) := Int.ofNat_nonneg _
    have h4 : (0 : Int) ≤ ((a % b : Nat) : Int) := Int.ofNat_nonneg _
    have h5 : ((a % b : Nat) : Int) < b := by exact_mod_cast h2
    have h6 : (0 : Int) ≤ a := Int.ofNat_nonneg _
    have h7 : ((a % b : Nat) : Int) ≤ a := by exact_mod_cast Nat.mod_le a b
    refine ⟨hdiv, ?_, heq, ?_, ?_⟩
  · rw [← Int.ofNat_tdiv]; positivity
  · rw [← Int.ofNat_tmod]; simpa using h2
  · rw [← Int.ofNat_tmod]; omega
  · rw [Int.tdiv_neg, ← Int.ofNat_tdiv]
    have : (0:Int) ≤ ((a / b : Nat) : Int) * a * b := by positivity
    linarith [this]
  · rw [Int.tmod_neg, ← Int.ofNat_tmod]; simpa using h2
  · rw [Int.tmod_neg, ← Int.ofNat_tmod]; omega
  · rw [Int.neg_tdiv, ← Int.ofNat_tdiv]
    have : (0:Int) ≤ ((a / b : Nat) : Int) * a * b := by positivity
    linarith [this]
  · rw [neg_tmod', ← Int.ofNat_tmod]; simpa using h2
  · rw [neg_tmod', ← Int.ofNat_tmod]; omega
  · rw [Int.neg_tdiv, Int.tdiv_neg, ← Int.ofNat_tdiv]
    have : (0:Int) ≤ ((a / b : Nat) : Int) * a * b := by positivity
    linarith [this]
  · rw [neg_tmod', Int.tmod_neg, ← Int.ofNat_tmod]; simpa using h2
  · rw [neg_tmod', Int.tmod_neg, ← Int.ofNat_tmod]; omega

theorem tdiv_isI32 (x y : Int) (hx : isI32 x) (hy0 : y ≠ 0)
    (hov : ¬ (x = INT_MIN ∧ y = -1)) : isI32 (Int.tdiv x y) := by
  have habs := (tdiv_tmod_facts x y hy0).1
  have hle : x.natAbs / y.natAbs ≤ x.natAbs := Nat.div_le_self _ _
  unfold isI32 at hx ⊢
  unfold INT_MIN at hov
  refine ⟨by omega, ?_⟩
  by_contra hq
  have hy1 : y.natAbs < 2 := by
    by_contra h2
    have : x.natAbs / y.natAbs ≤ x.natAbs / 2 :=
      Nat.div_le_div_left (by omega) (by omega)
    omega
  have hy' : y = 1 ∨ y = -1 := by omega
  rcases hy' with rfl | rfl
  · rw [Int.tdiv_one] at hq; omega
  · apply hov; constructor
    · omega
    · rfl

theorem tmod_isI32 (x y : Int) (hy : isI32 y) (hy0 : y ≠ 0) : isI32 (Int.tmod x y) := by
  have hlt := (tdiv_tmod_facts x y hy0).2.2.2.1
  unfold isI32 at hy ⊢
  omega

/-! ### Shifts -/

theorem c_shl_eq (x : Int) (n : Nat) :
    ofU32 (toU32 x <<< n) = wrap32 (x * 2 ^ n) := by
  rw [Nat.shiftLeft_eq, ofU32_eq_wrap32]
  push_cast
  rw [toU32_spec]
  have : x * 2 ^ n = (x - 4294967296 * (x / 4294967296)) * 2 ^ n
      + 4294967296 * ((x / 4294967296) * 2 ^ n) := by ring
  conv_rhs => rw [this]
  rw [wrap32_add_mul]

theorem c_shr_nonneg (x : Int) (n : Nat) (hx : isI32 x) (h0 : 0 ≤ x) :
    ofU32 (toU32 x >>> n) = x / 2 ^ n := by
  rw [Nat.shiftRight_eq_div_pow]
  unfold isI32 at hx
  have hu : toU32 x = x.toNat := by unfold toU32; omega
  have hle : x.toNat / 2 ^ n ≤ x.toNat := Nat.div_le_self _ _
  have hc : ((x.toNat / 2 ^ n : Nat) : Int) = x / 2 ^ n := by
    push_cast
    rw [Int.toNat_of_nonneg h0]
  rw [hu, ← hc]
  generalize x.toNat / 2 ^ n = v at hle ⊢
  unfold ofU32
  omega

theorem c_shr_neg (x : Int) (n : Nat) (hx : isI32 x) (h0 : x < 0) (hn : n < 32) :
    ofU32 (toU32 x >>> n ||| (4294967296 - 1 <<< (32 - n))) = x / 2 ^ n := by
  rw [Nat.shiftRight_eq_div_pow, Nat.shiftLeft_eq, Nat.one_mul]
  unfold isI32 at hx
  have hpow : (2 : Nat) ^ n * 2 ^ (32 - n) = 4294967296 := by
    rw [← pow_add]; have : n + (32 - n) = 32 := by omega
    rw [this]; norm_num
  have hA : 0 < (2 : Nat) ^ (32 - n) := Nat.two_pow_pos _
  have hB : 0 < (2 : Nat) ^ n := Nat.two_pow_pos _
  have hu : ((toU32 x : Nat) : Int) = x + 4294967296 := by unfold toU32; omega
  have hult : toU32 x < 2 ^ n * 2 ^ (32 - n) := by rw [hpow]; omega
  have hlt : toU32 x / 2 ^ n < 2 ^ (32 - n) := Nat.div_lt_of_lt_mul hult
  have hmask : 4294967296 - 2 ^ (32 - n) = 2 ^ (32 - n) * (2 ^ n - 1) := by
    rw [Nat.mul_sub, Nat.mul_one, Nat.mul_comm, hpow]
  rw [hmask, Nat.lor_comm, ← Nat.mul_add_lt_is_or hlt]
  have hdiv : ((toU32 x / 2 ^ n : Nat) : Int) = x / 2 ^ n + 2 ^ (32 - n) := by
    push_cast
    rw [hu]
    have h2 : (4294967296 : Int) = 2 ^ (32 - n) * 2 ^ n := by
      have := congrArg (fun k : Nat => (k : Int)) hpow
      push_cast at this
      linarith [this, mul_comm ((2:Int) ^ n) (2 ^ (32 - n))]
    rw [h2, Int.add_mul_ediv_right _ _ (by positivity)]
  have hlow : -2147483648 ≤ x / 2 ^ n := by
    have h1 : x / 2 ^ n * 2 ^ n > x - 2 ^ n := by
      have := Int.emod_lt_of_pos x (show (0:Int) < 2 ^ n by positivity)
      have := Int.ediv_add_emod x (2 ^ n)
      nlinarith
    by_contra hc
    have hc' : x / 2 ^ n ≤ -2147483649 := by omega
    have hBi : (1 : Int) ≤ 2 ^ n := by exact_mod_cast hB
    nlinarith
  have hneg : x / 2 ^ n < 0 := Int.ediv_neg' h0 (by positivity)
  have hsum : ((2 ^ (32 - n) * (2 ^ n - 1) + toU32 x / 2 ^ n : Nat) : Int)
      = 4294967296 + x / 2 ^ n := by
    rw [← hmask]
    have hAle : 2 ^ (32 - n) ≤ 4294967296 := by
      rw [← hpow]; exact Nat.le_mul_of_pos_left _ hB
    push_cast [Nat.cast_sub hAle]
    push_cast at hdiv
    rw [hdiv]; ring
  rw [ofU32_eq_wrap32, hsum]
  unfold wrap32
  omega

/-! ### Bitwise operations -/

theorem testBit_toU32 (x : Int) (hx : isI32 x) (i : Nat) (hi : i < 32) :
    (toU32 x).testBit i = x.testBit i := by
  unfold isI32 at hx
  cases x with
  | ofNat a =>
    have : toU32 (Int.ofNat a) = a := by unfold toU32; simp at hx ⊢; omega
    rw [this]; rfl
  | negSucc m =>
    have hm : m < 2 ^ 32 := by
      have := Int.negSucc_eq m
      omega
    have : toU32 (Int.negSucc m) = 2 ^ 32 - (m + 1) := by
      unfold toU32
      have := Int.negSucc_eq m
      omega
    rw [this, Nat.testBit_two_pow_sub_succ hm]
    simp [hi, Int.testBit]

theorem int_testBit_high (x : Int) (hx : isI32 x) (i : Nat) (hi : 31 ≤ i) :
    x.testBit i = x.testBit 31 := by
  unfold isI32 at hx
  have hpow : (2 : Nat) ^ 31 ≤ 2 ^ i := Nat.pow_le_pow_right (by decide) hi
  cases x with
  | ofNat a =>
    have ha : a < 2 ^ 31 := by simp at hx; omega
    show a.testBit i = a.testBit 31
    rw [Nat.testBit_lt_two_pow (Nat.lt_of_lt_of_le ha hpow), Nat.testBit_lt_two_pow ha]
  | negSucc m =>
    have hm : m < 2 ^ 31 := by
      have := Int.negSucc_eq m
      omega
    show (!m.testBit i) = !m.testBit 31
    rw [Nat.testBit_lt_two_pow (Nat.lt_of_lt_of_le hm hpow), Nat.testBit_lt_two_pow hm]

theorem testBit_ofU32 (u : Nat) (hu : u < 2 ^ 32) (i : Nat) (hi : i < 32) :
    (ofU32 u).testBit i = u.testBit i := by
  by_cases h : u < 2147483648
  · have : ofU32 u = Int.ofNat u := by unfold ofU32; simp; omega
    rw [this]; rfl
  · have : ofU32 u = Int.negSucc (2 ^ 32 - (u + 1)) := by
      unfold ofU32
      have := Int.negSucc_eq (2 ^ 32 - (u + 1))
      omega
    rw [this]
    show (!(Nat.testBit (2 ^ 32 - (u + 1)) i)) = u.testBit i
    rw [Nat.testBit_two_pow_sub_succ hu]
    simp [hi]

/-- The bits of the value pushed by a bitwise handler: those of the operands
combined place by place, at every place of the two's-complement expansion. -/
theorem bitwise_testBit (f : Bool → Bool → Bool) (g : Nat → Nat → Nat)
    (hg : ∀ a b i, (g a b).testBit i = f (a.testBit i) (b.testBit i))
    (hlt : ∀ a b, a < 2 ^ 32 → b < 2 ^ 32 → g a b < 2 ^ 32)
    (x y : Int) (hx : isI32 x) (hy : isI32 y) (i : Nat) :
    (ofU32 (g (toU32 x) (toU32 y))).testBit i = f (x.testBit i) (y.testBit i) := by
  have hu := hlt _ _ (toU32_lt x) (toU32_lt y)
  by_cases hi : i < 32
  · rw [testBit_ofU32 _ hu i hi, hg, testBit_toU32 x hx i hi, testBit_toU32 y hy i hi]
  · have hi' : 31 ≤ i := by omega
    rw [int_testBit_high _ (isI32_ofU32 _) i hi', int_testBit_high x hx i hi',
      int_testBit_high y hy i hi', testBit_ofU32 _ hu 31 (by decide), hg,
      testBit_toU32 x hx 31 (by decide), testBit_toU32 y hy 31 (by decide)]

theorem c_and_testBit (x y : Int) (hx : isI32 x) (hy : isI32 y) (i : Nat) :
    (c_and x y).testBit i = (x.testBit i && y.testBit i) :=
  bitwise_testBit and (fun a b => a &&& b) Nat.testBit_and
    (fun _ _ _ hb => Nat.and_lt_two_pow _ hb) x y hx hy i

theorem c_or_testBit (x y : Int) (hx : isI32 x) (hy : isI32 y) (i : Nat) :
    (c_or x y).testBit i = (x.testBit i || y.testBit i) :=
  bitwise_testBit or (fun a b => a ||| b) Nat.testBit_or
    (fun _ _ ha hb => Nat.or_lt_two_pow ha hb) x y hx hy i

theorem c_xor_testBit (x y : Int) (hx : isI32 x) (hy : isI32 y) (i : Nat) :
    (c_xor x y).testBit i = xor (x.testBit i) (y.testBit i) :=
  bitwise_testBit xor (fun a b => a ^^^ b) Nat.testBit_xor
    (fun _ _ ha hb => Nat.xor_lt_two_pow ha hb) x y hx hy i

/-! ### Control flow and calls -/

/-- The two-byte immediate is `256 * hi + lo`. -/
theorem imm16_eq (hi lo : Nat) (hlo : lo < 256) : imm16 hi lo = 256 * hi + lo := by
  unfold imm16
  rw [Nat.shiftLeft_eq, Nat.mul_comm]
  exact (Nat.mul_add_lt_is_or (i := 8) (by simpa using hlo) hi).symm

/-- The cast to `int16_t` yields the 16-bit signed value congruent to its
argument modulo `2^16`. -/
theorem sext16_spec (v : Nat) :
    -32768 ≤ sext16 v ∧ sext16 v ≤ 32767 ∧ (sext16 v - (v : Int)) % 65536 = 0 := by
  unfold sext16
  split <;> omega

/-- A jump whose target is a `size_t` offset lands on that target. -/
theorem jump_eq (pc : Nat) (d : Int) (h0 : 0 ≤ (pc : Int) + d)
    (h1 : (pc : Int) + d < 18446744073709551616) : jump pc d = ((pc : Int) + d).toNat := by
  unfold jump; omega

/-- The argument loop moves the top `k` values of the stack, in push order,
into the first `k` slots of the locals. -/
theorem pop_args_spec (args rest : List c0_value) (V : List (Option c0_value))
    (hlen : args.length ≤ V.length) :
    pop_args args.length (args.reverse ++ rest) V
      = some (rest, args.map some ++ V.drop args.length) := by
  induction args using List.reverseRecOn generalizing V with
  | nil => simp [pop_args]
  | append_singleton init a ih =>
    have hlt : init.length < V.length := by simp at hlen; omega
    have hl : (init ++ [a]).length = init.length + 1 := by simp
    rw [hl]
    simp only [List.reverse_append, List.reverse_singleton, List.singleton_append,
      List.cons_append, List.nil_append, pop_args, c0v_pop, if_pos hlt]
    rw [ih (V.set init.length (some a)) (by simp; omega)]
    have hd : List.drop init.length (V.set init.length (some a))
        = some a :: List.drop (init.length + 1) V := by
      have h1 : List.drop init.length V = V[init.length] :: List.drop (init.length + 1) V :=
        List.drop_eq_getElem_cons hlt
      rw [List.drop_set, if_neg (by omega), Nat.sub_self, h1, List.set_cons_zero]
    simp [hd]

/-- A handler leaves the call stack alone, pushes one frame, or pops one. -/
theorem exec_callStack (natives : native_table) (bc0 : bc0_file) (op : Opcode)
    (s s' : State) (h : exec natives bc0 op s = Outcome.next s') :
    s'.callStack = s.callStack ∨ (∃ f, s'.callStack = f :: s.callStack) ∨
      (∃ f, s.callStack = f :: s'.callStack) := by
  cases op <;> simp only [exec, pop_val, pop_int, pop_ptr, read_code, branch] at h <;>
    (repeat' split at h) <;> simp at h <;> subst h <;> simp_all

/-- One iteration leaves the call stack alone, pushes one frame, or pops one. -/
theorem step_callStack (natives : native_table) (bc0 : bc0_file) (s s' : State)
    (h : step natives bc0 s = Outcome.next s') :
    s'.callStack = s.callStack ∨ (∃ f, s'.callStack = f :: s.callStack) ∨
      (∃ f, s.callStack = f :: s'.callStack) := by
  unfold step at h
  split at h
  · cases h
  · split at h
    · exact exec_callStack natives bc0 _ s s' h
    · cases h

/-- While the call depth stays at or above that of `base`, the frames of
`base` stay at the bottom of the call stack. -/
theorem steps_callStack_suffix (natives : native_table) (bc0 : bc0_file)
    (base : List frame) (n : Nat) (u t : State)
    (hu : ∃ pre, u.callStack = pre ++ base)
    (hrun : steps natives bc0 n u = some t)
    (hdepth : ∀ i w, i ≤ n → steps natives bc0 i u = some w →
      base.length ≤ w.callStack.length) :
    ∃ pre, t.callStack = pre ++ base := by
  induction n generalizing u with
  | zero => simp only [steps] at hrun; cases hrun; exact hu
  | succ n ih =>
    simp only [steps] at hrun
    cases hs : step natives bc0 u with
    | next u' =>
      rw [hs] at hrun
      have hd' : ∀ i w, i ≤ n → steps natives bc0 i u' = some w →
          base.length ≤ w.callStack.length := by
        intro i w hi hw
        apply hdepth (i + 1) w (by omega)
        simp only [steps, hs]; exact hw
      have hu1 : base.length ≤ u'.callStack.length := hd' 0 u' (by omega) rfl
      refine ih u' ?_ hrun hd'
      obtain ⟨pre, hpre⟩ := hu
      rcases step_callStack natives bc0 u u' hs with h | ⟨f, h⟩ | ⟨f, h⟩
      · exact ⟨pre, by rw [h, hpre]⟩
      · exact ⟨f :: pre, by rw [h, hpre]; rfl⟩
      · cases pre with
        | nil =>
          exfalso
          rw [List.nil_append] at hpre
          rw [hpre] at h
          rw [h] at hu1
          simp at hu1
        | cons f' pre' =>
          rw [hpre] at h
          simp only [List.cons_append, List.cons.injEq] at h
          exact ⟨pre', h.2.symm⟩
    | ret v => rw [hs] at hrun; cases hrun
    | trap e => rw [hs] at hrun; cases hrun
    | abort => rw [hs] at hrun; cases hrun
    | undefined => rw [hs] at hrun; cases hrun

/-- After `n` iterations that do not stop the loop, the loop goes on from
the state they reach. -/
theorem run_of_steps (natives : native_table) (bc0 : bc0_file) (n m : Nat) (s u : State)
    (h : steps natives bc0 n s = some u) :
    run natives bc0 (n + m) s = run natives bc0 m u := by
  induction n generalizing s with
  | zero => simp only [steps] at h; cases h; simp
  | succ n ih =>
    simp only [steps] at h
    rw [Nat.succ_add]
    simp only [run]
    cases hs : step natives bc0 s with
    | next s' => rw [hs] at h; exact ih s' h
    | ret v => rw [hs] at h; cases h
    | trap e => rw [hs] at h; cases h
    | abort => rw [hs] at h; cases h
    | undefined => rw [hs] at h; cases h

/-- When the state reached after `m` iterations returns `v`, so does
`execute` with any fuel above `m`. -/
theorem execute_of_steps (natives : native_table) (bc0 : bc0_file) (s0 u : State)
    (v : Int) (m k : Nat) (h0 : initial_state bc0 = some s0)
    (hm : steps natives bc0 m s0 = some u) (hstep : step natives bc0 u = Outcome.ret v) :
    execute natives bc0 (m + 1 + k) = Outcome.ret v := by
  unfold execute
  rw [h0]
  simp only
  rw [Nat.add_assoc, run_of_steps natives bc0 m (1 + k) s0 u hm, Nat.add_comm 1 k]
  simp only [run, hstep]

theorem decode_RETURN : decode Opcode.RETURN.code = some Opcode.RETURN := by decide

theorem decode_INVOKESTATIC : decode Opcode.INVOKESTATIC.code = some Opcode.INVOKESTATIC := by
  decide

set_option maxRecDepth 100000 in
/-- The factorial image evaluated up to the `RETURN` of `main`. -/
theorem fact_steps_eval (natives : native_table) (n : Nat) (hn : n ≤ 12) :
    steps natives (fact_image n) (fact_steps n)
      { S := [], P := fact_main n, pc := 0, V := [], callStack := [], heap := [] }
      = some (fact_final n) := by
  interval_cases n <;> rfl

/-! ### Memory and dispatch -/

/-- A byte of the encoding table selects the handler of its opcode. -/
theorem decode_defined (b : Nat) (hb : is_defined_opcode b = true) :
    ∃ op, decode b = some op ∧ op ∉ Opcode.reserved ∧ op.code = b := by
  simp only [is_defined_opcode, encoding_table, List.any_cons, List.any_nil, Bool.or_false,
    Bool.or_eq_true, beq_iff_eq] at hb
  rcases hb with h | h | h | h | h | h | h | h | h | h | h | h | h | h | h | h | h | h | h
    | h | h | h | h | h | h | h | h | h | h | h | h | h | h | h | h | h | h | h | h | h | h
    | h | h <;> subst h <;> exact ⟨_, by decide, by decide, rfl⟩

/-- A byte outside the encoding table selects a reserved label or none. -/
theorem decode_undefined (b : Nat) (hb : is_defined_opcode b = false) :
    decode b = none ∨ ∃ op, decode b = some op ∧ op ∈ Opcode.reserved ∧ op.code = b := by
  cases hd : decode b with
  | none => exact Or.inl rfl
  | some op =>
    right
    have hfind := hd
    unfold decode at hfind
    have hcode : op.code = b := by
      have := List.find?_some hfind
      simpa using this
    refine ⟨op, rfl, ?_, hcode⟩
    subst hcode
    cases op <;> first | decide | (exfalso; revert hb; decide)

/-- A handler of the encoding table raises the invalid-opcode failure only
if a native function does. -/
theorem exec_not_invalid (natives : native_table) (bc0 : bc0_file) (op : Opcode)
    (s : State) (hn : natives_ok natives) (hop : op ∉ Opcode.reserved) :
    (exec natives bc0 op s).isInvalidOpcode = false := by
  cases op <;> first
    | (exfalso; revert hop; decide)
    | (simp only [exec, pop_val, pop_int, pop_ptr, read_code, branch]
       repeat' split
       all_goals first
         | rfl
         | (rename_i t _
            cases t <;> first
              | rfl
              | (exfalso; exact hn _ _ _ _ _ (by assumption) (by assumption))))

/-- A handler that does not assign `pc` directly and completes advances
`pc` by the length of its instruction. -/
theorem exec_pc_advance (natives : native_table) (bc0 : bc0_file) (op : Opcode)
    (s s' : State) (hop : op ∉ Opcode.assigns_pc)
    (h : exec natives bc0 op s = Outcome.next s') :
    ∃ len, instr_length op = some len ∧ s'.pc = s.pc + len := by
  cases op <;> first
    | (exfalso; revert hop; decide)
    | (simp only [exec, pop_val, pop_int, pop_ptr, read_code] at h
       (repeat' split at h) <;> simp at h <;> subst h <;> exact ⟨_, rfl, rfl⟩)

/-- The mask `& 0x7F` keeps the residue modulo 128. -/
theorem cmstore_byte (x : Int) :
    toU32 (c_and x 0x7F) % 256 = toU32 x &&& 127 ∧
    ((toU32 x &&& 127 : Nat) : Int) = x % 128 ∧ toU32 x &&& 127 < 128 := by
  have hand : toU32 x &&& 127 = toU32 x % 128 := by
    have := Nat.and_pow_two_sub_one_eq_mod (toU32 x) 7
    simpa using this
  have h127 : toU32 0x7F = 127 := by decide
  refine ⟨?_, ?_, ?_⟩
  · unfold c_and
    rw [h127, hand]
    generalize hv : toU32 x % 128 = v
    have : v < 128 := by omega
    unfold toU32 ofU32
    omega
  · rw [hand]; unfold toU32; omega
  · rw [hand]; omega

/-! ## The claims -/

/-- C1: with `x` pushed first and `y` pushed last, the `IDIV` handler and the
`IREM` handler each raise the arithmetic trap exactly when `y = 0` or
(`x = INT_MIN` and `y = -1`), and raise no trap of any kind otherwise.  The
S3 program `BIPUSH 1; BIPUSH 0; IDIV; RETURN` and the S4 program `ILDC` of
`0x80000000`; `BIPUSH -1`; `IDIV` end in the arithmetic trap after three
iterations and never return a value. -/
theorem C1_idiv_irem_trap (natives : native_table) (bc0 : bc0_file) (s : State)
    (x y : Int) (rest : List c0_value) :
    ((exec natives bc0 Opcode.IDIV
        { s with S := c0_value.int y :: c0_value.int x :: rest }).isArithTrap = true
      ↔ (y = 0 ∨ (x = INT_MIN ∧ y = -1))) ∧
    ((exec natives bc0 Opcode.IDIV
        { s with S := c0_value.int y :: c0_value.int x :: rest }).isTrap = true
      ↔ (y = 0 ∨ (x = INT_MIN ∧ y = -1))) ∧
    ((exec natives bc0 Opcode.IREM
        { s with S := c0_value.int y :: c0_value.int x :: rest }).isArithTrap = true
      ↔ (y = 0 ∨ (x = INT_MIN ∧ y = -1))) ∧
    ((exec natives bc0 Opcode.IREM
        { s with S := c0_value.int y :: c0_value.int x :: rest }).isTrap = true
      ↔ (y = 0 ∨ (x = INT_MIN ∧ y = -1))) ∧
    (∀ k, execute natives S3_image (3 + k) = Outcome.trap (Trap.arith "Division by 0")) ∧
    (∀ fuel v, execute natives S3_image fuel ≠ Outcome.ret v) ∧
    (∀ k, execute natives S4_image (3 + k)
      = Outcome.trap (Trap.arith "Division overflow")) ∧
    (∀ fuel v, execute natives S4_image fuel ≠ Outcome.ret v) := by
  have h3 : ∀ k, execute natives S3_image (3 + k)
      = Outcome.trap (Trap.arith "Division by 0") := by
    intro k
    exact run_stable natives S3_image 3 k _ rfl
  have h4 : ∀ k, execute natives S4_image (3 + k)
      = Outcome.trap (Trap.arith "Division overflow") := by
    intro k
    exact run_stable natives S4_image 3 k _ rfl
  refine ⟨?_, ?_, ?_, ?_, h3, ?_, h4, ?_⟩
  · by_cases hy : y = 0
    · simp [exec, hy, Outcome.isArithTrap]
    · by_cases hx : x = INT_MIN ∧ y = -1
      · simp [exec, hy, hx, Outcome.isArithTrap]
      · simp [exec, hy, hx, Outcome.isArithTrap]
  · by_cases hy : y = 0
    · simp [exec, hy, Outcome.isTrap]
    · by_cases hx : x = INT_MIN ∧ y = -1
      · simp [exec, hy, hx, Outcome.isTrap]
      · simp [exec, hy, hx, Outcome.isTrap]
  · by_cases hy : y = 0
    · simp [exec, hy, Outcome.isArithTrap]
    · by_cases hx : x = INT_MIN ∧ y = -1
      · simp [exec, hy, hx, Outcome.isArithTrap]
      · simp [exec, hy, hx, Outcome.isArithTrap]
  · by_cases hy : y = 0
    · simp [exec, hy, Outcome.isTrap]
    · by_cases hx : x = INT_MIN ∧ y = -1
      · simp [exec, hy, hx, Outcome.isTrap]
      · simp [exec, hy, hx, Outcome.isTrap]
  · intro fuel v
    rcases Nat.lt_or_ge fuel 3 with h | h
    · interval_cases fuel <;> exact (fun hh => by cases hh)
    · obtain ⟨k, rfl⟩ := Nat.exists_eq_add_of_le h
      rw [h3 k]; exact fun hh => by cases hh
  · intro fuel v
    rcases Nat.lt_or_ge fuel 3 with h | h
    · interval_cases fuel <;> exact (fun hh => by cases hh)
    · obtain ⟨k, rfl⟩ := Nat.exists_eq_add_of_le h
      rw [h4 k]; exact fun hh => by cases hh

/-- C2 on the code: `AADDS` raises the memory trap exactly when the index is
negative or at least the `count` of the header, and pushes an element
pointer otherwise; but on the array created by `BIPUSH 3; NEWARRAY 4` that
`count` is 4, so `AADDS` with index 3 raises no trap and pushes the pointer
12 bytes into the element buffer, and the first index that traps is 4. -/
theorem C2_aadds_accepts_index_n :
    (∀ (natives : native_table) (bc0 : bc0_file) (i count elt_size : Int) (elems : c0_ptr)
        (rest : List c0_value) (P : List Nat) (pc : Nat) (V : List (Option c0_value))
        (cs : List frame),
      ((exec natives bc0 Opcode.AADDS
          { S := c0_value.int i :: c0_value.ptr (c0_ptr.cell 0 0) :: rest, P := P, pc := pc,
            V := V, callStack := cs,
            heap := [heap_obj.array count elt_size elems] }).isMemoryTrap = true
        ↔ (i < 0 ∨ i ≥ count)) ∧
      ((exec natives bc0 Opcode.AADDS
          { S := c0_value.int i :: c0_value.ptr (c0_ptr.cell 0 0) :: rest, P := P, pc := pc,
            V := V, callStack := cs,
            heap := [heap_obj.array count elt_size elems] }).isNext = true
        ↔ (0 ≤ i ∧ i < count))) ∧
    steps no_natives S7_image 4
        { S := [], P := [0x10, 3, 0xBC, 4, 0x10, 3, 0x63], pc := 0, V := [],
          callStack := [], heap := [] }
      = some { S := [c0_value.ptr (c0_ptr.cell 1 12)],
               P := [0x10, 3, 0xBC, 4, 0x10, 3, 0x63], pc := 7, V := [], callStack := [],
               heap := [heap_obj.array 4 4 (c0_ptr.cell 1 0),
                        heap_obj.raw (List.replicate 16 (mem_byte.byte 0))] } ∧
    execute no_natives (entry_image [] [] 0 [0x10, 3, 0xBC, 4, 0x10, 4, 0x63]) 4
      = Outcome.trap (Trap.memory "out of bounds") := by
  refine ⟨?_, by decide, by decide⟩
  intro natives bc0 i count elt_size elems rest P pc V cs
  by_cases h : i < 0 ∨ i ≥ count
  · have h' : ¬ (0 ≤ i ∧ i < count) := by omega
    simp [exec, h, h', Outcome.isMemoryTrap, Outcome.isNext]
  · have h' : 0 ≤ i ∧ i < count := by omega
    simp [exec, h, h', Outcome.isMemoryTrap, Outcome.isNext]

/-- C3 on the code: `NEWARRAY` raises the memory trap exactly when the popped
length `n` is negative; but for `n >= 0` it stores `count = n + 1` over
`(n + 1) * s` zeroed element bytes, and `ARRAYLENGTH` then pushes `n + 1`:
for the popped length 3 and element size 4, `count = 4` over 16 bytes and
`execute` returns 4. -/
theorem C3_newarray_count_is_n_plus_one :
    (∀ (natives : native_table) (bc0 : bc0_file) (n : Int) (sz : Nat)
        (rest : List c0_value) (V : List (Option c0_value)) (cs : List frame) (h : Heap),
      (exec natives bc0 Opcode.NEWARRAY
          { S := c0_value.int n :: rest, P := [Opcode.NEWARRAY.code, sz], pc := 0, V := V,
            callStack := cs, heap := h }).isTrap = true ↔ n < 0) ∧
    (∀ (natives : native_table) (bc0 : bc0_file) (n : Int) (sz : Nat)
        (rest : List c0_value) (V : List (Option c0_value)) (cs : List frame) (h : Heap),
      0 ≤ n → n < 2147483647 → (sz : Int) * (n + 1) ≤ 2147483647 →
      exec natives bc0 Opcode.NEWARRAY
          { S := c0_value.int n :: rest, P := [Opcode.NEWARRAY.code, sz], pc := 0, V := V,
            callStack := cs, heap := h }
        = Outcome.next
          { S := c0_value.ptr (c0_ptr.cell h.length 0) :: rest,
            P := [Opcode.NEWARRAY.code, sz], pc := 2, V := V, callStack := cs,
            heap := h ++ [heap_obj.array (n + 1) sz (c0_ptr.cell (h.length + 1) 0),
                          heap_obj.raw (List.replicate ((sz : Int) * (n + 1)).toNat
                            (mem_byte.byte 0))] } ∧
      exec natives bc0 Opcode.ARRAYLENGTH
          { S := c0_value.ptr (c0_ptr.cell h.length 0) :: rest,
            P := [Opcode.NEWARRAY.code, sz], pc := 2, V := V, callStack := cs,
            heap := h ++ [heap_obj.array (n + 1) sz (c0_ptr.cell (h.length + 1) 0),
                          heap_obj.raw (List.replicate ((sz : Int) * (n + 1)).toNat
                            (mem_byte.byte 0))] }
        = Outcome.next
          { S := c0_value.int (n + 1) :: rest,
            P := [Opcode.NEWARRAY.code, sz], pc := 3, V := V, callStack := cs,
            heap := h ++ [heap_obj.array (n + 1) sz (c0_ptr.cell (h.length + 1) 0),
                          heap_obj.raw (List.replicate ((sz : Int) * (n + 1)).toNat
                            (mem_byte.byte 0))] }) ∧
    steps no_natives length_image 2
        { S := [], P := [0x10, 3, 0xBC, 4, 0xBE, 0xB0], pc := 0, V := [], callStack := [],
          heap := [] }
      = some { S := [c0_value.ptr (c0_ptr.cell 0 0)], P := [0x10, 3, 0xBC, 4, 0xBE, 0xB0],
               pc := 4, V := [], callStack := [],
               heap := [heap_obj.array 4 4 (c0_ptr.cell 1 0),
                        heap_obj.raw (List.replicate 16 (mem_byte.byte 0))] } ∧
    execute no_natives length_image 4 = Outcome.ret 4 := by
  refine ⟨?_, ?_, by decide, by decide⟩
  · intro natives bc0 n sz rest V cs h
    by_cases hn : n < 0
    · simp [exec, read_code, hn, Outcome.isTrap]
    · by_cases ha : wrap32 ((sz : Int) * wrap32 (n + 1)) < 0 <;>
        simp [exec, read_code, hn, ha, Outcome.isTrap]
  · intro natives bc0 n sz rest V cs h h0 h1 h2
    have hc : wrap32 (n + 1) = n + 1 := wrap32_of_isI32 _ (by unfold isI32; omega)
    have hnn : (0 : Int) ≤ (sz : Int) * (n + 1) :=
      Int.mul_nonneg (Int.ofNat_nonneg _) (by omega)
    have hs : wrap32 ((sz : Int) * (n + 1)) = (sz : Int) * (n + 1) :=
      wrap32_of_isI32 _ (by unfold isI32; omega)
    constructor
    · have hn : ¬ n < 0 := by omega
      have ha : ¬ (sz : Int) * (n + 1) < 0 := by omega
      simp [exec, read_code, hn, hc, hs, ha, c0v_push, ptr2val]
    · have hget : (h ++ [heap_obj.array (n + 1) sz (c0_ptr.cell (h.length + 1) 0),
          heap_obj.raw (List.replicate ((sz : Int) * (n + 1)).toNat (mem_byte.byte 0))])[h.length]?
          = some (heap_obj.array (n + 1) sz (c0_ptr.cell (h.length + 1) 0)) := by
        rw [List.getElem?_append_right (Nat.le_refl _)]; simp
      simp only [exec, pop_ptr_cons, hget, c0v_push, int2val]

/-- C4: at offset `pc` with immediate bytes `hi`, `lo`, each of the six
conditional branches pops both operands and sets `pc` to the target when its
relation holds (`IF_CMPEQ`: `val_equal`; `IF_CMPNE`: its negation;
`IF_ICMPLT`, `LE`, `GT`, `GE`: the signed comparisons of `x`, pushed first,
with `y`) and to `pc + 3` otherwise; `GOTO` pops nothing and always sets `pc`
to the target.  The target is `pc + sign_extend16((hi<<8)|lo)` computed on
`size_t`, that is modulo `2^64`: it is exactly `pc + sign_extend16(...)`,
counted from the opcode byte and possibly below it, whenever that sum is a
`size_t` offset.  The displacement `sign_extend16((hi<<8)|lo)` is the
16-bit signed value congruent to `256 * hi + lo` modulo `2^16`: it is
`256 * hi + lo` for `hi < 128` and `256 * hi + lo - 65536` for a byte
`hi >= 128`. -/
theorem C4_branch_target (natives : native_table) (bc0 : bc0_file) (s : State)
    (hi lo : Nat) (v1 v2 : c0_value) (x y : Int) (rest : List c0_value)
    (hhi : s.P[s.pc + 1]? = some hi) (hlo : s.P[s.pc + 2]? = some lo)
    (hbyte : lo < 256) :
    ∃ tgt : Nat,
      (tgt : Int) = ((s.pc : Int) + sext16 (imm16 hi lo)) % 18446744073709551616 ∧
      (0 ≤ (s.pc : Int) + sext16 (imm16 hi lo) →
        (s.pc : Int) + sext16 (imm16 hi lo) < 18446744073709551616 →
        (tgt : Int) = (s.pc : Int) + sext16 (imm16 hi lo)) ∧
      imm16 hi lo = 256 * hi + lo ∧
      -32768 ≤ sext16 (imm16 hi lo) ∧ sext16 (imm16 hi lo) ≤ 32767 ∧
      (sext16 (imm16 hi lo) - (256 * (hi : Int) + (lo : Int))) % 65536 = 0 ∧
      (hi < 128 → sext16 (imm16 hi lo) = 256 * (hi : Int) + (lo : Int)) ∧
      (128 ≤ hi → hi < 256 →
        sext16 (imm16 hi lo) = 256 * (hi : Int) + (lo : Int) - 65536) ∧
      exec natives bc0 Opcode.IF_CMPEQ { s with S := v2 :: v1 :: rest }
        = Outcome.next { s with S := rest,
                                pc := if val_equal v1 v2 = true then tgt else s.pc + 3 } ∧
      exec natives bc0 Opcode.IF_CMPNE { s with S := v2 :: v1 :: rest }
        = Outcome.next { s with S := rest,
                                pc := if val_equal v1 v2 = false then tgt else s.pc + 3 } ∧
      exec natives bc0 Opcode.IF_ICMPLT { s with S := c0_value.int y :: c0_value.int x :: rest }
        = Outcome.next { s with S := rest, pc := if x < y then tgt else s.pc + 3 } ∧
      exec natives bc0 Opcode.IF_ICMPLE { s with S := c0_value.int y :: c0_value.int x :: rest }
        = Outcome.next { s with S := rest, pc := if x ≤ y then tgt else s.pc + 3 } ∧
      exec natives bc0 Opcode.IF_ICMPGT { s with S := c0_value.int y :: c0_value.int x :: rest }
        = Outcome.next { s with S := rest, pc := if x > y then tgt else s.pc + 3 } ∧
      exec natives bc0 Opcode.IF_ICMPGE { s with S := c0_value.int y :: c0_value.int x :: rest }
        = Outcome.next { s with S := rest, pc := if x ≥ y then tgt else s.pc + 3 } ∧
      exec natives bc0 Opcode.GOTO s = Outcome.next { s with pc := tgt } := by
  have himm := imm16_eq hi lo hbyte
  obtain ⟨hs1, hs2, hs3⟩ := sext16_spec (imm16 hi lo)
  have hc : ((imm16 hi lo : Nat) : Int) = 256 * (hi : Int) + (lo : Int) := by
    rw [himm]; push_cast; ring
  rw [hc] at hs3
  refine ⟨jump s.pc (sext16 (imm16 hi lo)), by unfold jump; omega,
    fun h0 h1 => by rw [jump_eq _ _ h0 h1]; omega,
    himm, hs1, hs2, hs3, fun hh => by omega, fun hh1 hh2 => by omega,
    ?_, ?_, ?_, ?_, ?_, ?_, ?_⟩
  · by_cases h : val_equal v1 v2 = true <;>
      simp [exec, branch, read_code, hhi, hlo, h]
  · by_cases h : val_equal v1 v2 = true <;>
      simp [exec, branch, read_code, hhi, hlo, h]
  · by_cases h : x < y <;> simp [exec, branch, read_code, hhi, hlo, h]
  · by_cases h : x ≤ y <;> simp [exec, branch, read_code, hhi, hlo, h]
  · by_cases h : x > y <;> simp [exec, branch, read_code, hhi, hlo, h]
  · by_cases h : x ≥ y <;> simp [exec, branch, read_code, hhi, hlo, h]
  · simp [exec, read_code, hhi, hlo]

/-- C4 at offset 10 with the bytes `0xFF 0xFB`: the displacement is `-5`
and `GOTO` lands on offset 5. -/
theorem C4_branch_target_witness :
    goto_state.P[goto_state.pc + 1]? = some 0xFF ∧
    goto_state.P[goto_state.pc + 2]? = some 0xFB ∧
    sext16 (imm16 0xFF 0xFB) = -5 ∧
    exec no_natives S3_image Opcode.GOTO goto_state
      = Outcome.next { goto_state with pc := 5 } :=
  ⟨by decide, by decide, by decide,
    match C4_branch_target no_natives S3_image goto_state 0xFF 0xFB (c0_value.int 0)
        (c0_value.int 0) 0 0 [] (by decide) (by decide) (by decide) with
    | ⟨tgt, _, h1, _, _, _, _, _, _, _, _, _, _, _, _, h9⟩ => by
      have h5 : tgt = 5 := by
        have hd : sext16 (imm16 0xFF 0xFB) = -5 := by decide
        have hp : ((goto_state.pc : Nat) : Int) = 10 := rfl
        rw [hd, hp] at h1
        have := h1 (by decide) (by decide)
        omega
      rw [h9, h5]⟩

/-- C5: when the current instruction is `INVOKESTATIC hi lo` at offset `pc`,
`g = function_pool[(hi<<8)|lo]` has `k = num_args <= num_vars`, and the top
`k` values of the operand stack are `args` (the last one pushed last, on
top), the step leaves an empty operand stack, `P = g.code`, `pc = 0`, locals
of `num_vars` slots whose slot `j` holds `args[j]` for every `j < k`, and on
the call stack a new frame with the caller's `P`, the caller's `V`, the
caller's stack without the `k` values, and `pc + 3`. -/
theorem C5_invokestatic (natives : native_table) (bc0 : bc0_file) (s : State)
    (hi lo : Nat) (g : function_info) (args rest : List c0_value)
    (hop : s.P[s.pc]? = some Opcode.INVOKESTATIC.code)
    (hhi : s.P[s.pc + 1]? = some hi) (hlo : s.P[s.pc + 2]? = some lo)
    (hg : bc0.function_pool[imm16 hi lo]? = some g)
    (hk : args.length = g.num_args) (hkv : g.num_args ≤ g.num_vars)
    (hS : s.S = args.reverse ++ rest) :
    ∃ V' : List (Option c0_value),
      step natives bc0 s
        = Outcome.next { S := [], P := g.code, pc := 0, V := V',
                         callStack := { S := rest, P := s.P, pc := s.pc + 3, V := s.V }
                                       :: s.callStack,
                         heap := s.heap } ∧
      V'.length = g.num_vars ∧
      (∀ (j : Nat) (hj : j < args.length), V'[j]? = some (some args[j])) := by
  refine ⟨args.map some ++ List.replicate (g.num_vars - g.num_args) none, ?_, ?_, ?_⟩
  · have hpa := pop_args_spec args rest (List.replicate g.num_vars none)
      (by simp; omega)
    rw [hk] at hpa
    simp only [List.drop_replicate] at hpa
    simp only [step, hop, decode_INVOKESTATIC, exec, read_code, hhi, hlo, hg, hS, hpa]
  · simp; omega
  · intro j hj
    rw [List.getElem?_append_left (by simp; omega)]
    simp

/-- C5 on `call_image`: the call of function 1 with the argument 5. -/
theorem C5_invokestatic_witness :
    call_state.P[call_state.pc]? = some Opcode.INVOKESTATIC.code ∧
    call_state.S = [c0_value.int 5].reverse ++ [] ∧
    ∃ V' : List (Option c0_value),
      step no_natives call_image call_state
        = Outcome.next { S := [], P := [0x15, 0, 0xB0], pc := 0, V := V',
                         callStack := [{ S := [], P := call_state.P, pc := 5, V := [] }],
                         heap := [] } ∧
      V'.length = 1 ∧
      (∀ (j : Nat) (hj : j < [c0_value.int 5].length),
        V'[j]? = some (some [c0_value.int 5][j])) :=
  ⟨by decide, by decide,
    C5_invokestatic no_natives call_image call_state 0 1
      { num_args := 1, num_vars := 1, code := [0x15, 0, 0xB0] } [c0_value.int 5] []
      (by decide) (by decide) (by decide) (by decide) (by decide) (by decide) (by decide)⟩

/-- C6: let the caller execute `INVOKESTATIC` at offset `pc` with the `k`
arguments `args` on top of `rest`.  If `n` iterations later, none of which
brought the call depth back to the caller's, the machine is at the callee's
depth in front of a `RETURN` with exactly the value `r` on its operand
stack, then that step resumes the caller: its code `P`, `pc + 3`, its locals
`V`, the call stack of before the call, and the operand stack `r :: rest`.
A `RETURN` on an empty call stack with the integer `v` on the stack makes
`execute` return `v`. -/
theorem C6_call_return (natives : native_table) (bc0 : bc0_file) (s : State)
    (hi lo : Nat) (g : function_info) (args rest : List c0_value)
    (n : Nat) (t : State) (r : c0_value)
    (hop : s.P[s.pc]? = some Opcode.INVOKESTATIC.code)
    (hhi : s.P[s.pc + 1]? = some hi) (hlo : s.P[s.pc + 2]? = some lo)
    (hg : bc0.function_pool[imm16 hi lo]? = some g)
    (hk : args.length = g.num_args) (hkv : g.num_args ≤ g.num_vars)
    (hS : s.S = args.reverse ++ rest)
    (hrun : steps natives bc0 (n + 1) s = some t)
    (hdepth : ∀ i w, 1 ≤ i → i ≤ n + 1 → steps natives bc0 i s = some w →
      s.callStack.length + 1 ≤ w.callStack.length)
    (hsame : t.callStack.length = s.callStack.length + 1)
    (hret : t.P[t.pc]? = some Opcode.RETURN.code) (htS : t.S = [r]) :
    step natives bc0 t
        = Outcome.next { S := r :: rest, P := s.P, pc := s.pc + 3, V := s.V,
                         callStack := s.callStack, heap := t.heap } ∧
    (∀ (u : State) (v : Int), u.P[u.pc]? = some Opcode.RETURN.code →
      u.S = [c0_value.int v] → u.callStack = [] →
      step natives bc0 u = Outcome.ret v ∧
      ∀ (m k : Nat) (s0 : State), initial_state bc0 = some s0 →
        steps natives bc0 m s0 = some u → execute natives bc0 (m + 1 + k) = Outcome.ret v) := by
  constructor
  · -- the state right after the call
    have hpa := pop_args_spec args rest (List.replicate g.num_vars none) (by simp; omega)
    rw [hk] at hpa
    have hcall : step natives bc0 s
        = Outcome.next { S := [], P := g.code, pc := 0,
                         V := args.map some ++ List.drop g.num_args (List.replicate g.num_vars none),
                         callStack := { S := rest, P := s.P, pc := s.pc + 3, V := s.V }
                                       :: s.callStack,
                         heap := s.heap } := by
      simp only [step, hop, decode_INVOKESTATIC, exec, read_code, hhi, hlo, hg, hS, hpa]
    simp only [steps, hcall] at hrun
    have hsuf := steps_callStack_suffix natives bc0
      ({ S := rest, P := s.P, pc := s.pc + 3, V := s.V } :: s.callStack) n _ t
      ⟨[], rfl⟩ hrun (by
        intro i w hi hw
        have := hdepth (i + 1) w (by omega) (by omega) (by simp only [steps, hcall]; exact hw)
        simpa using this)
    obtain ⟨pre, hpre⟩ := hsuf
    have hnil : pre = [] := by
      have := congrArg List.length hpre
      simp [hsame] at this
      exact this
    subst hnil
    rw [List.nil_append] at hpre
    simp [step, hret, decode_RETURN, exec, htS, hpre, c0v_push]
  · intro u v hu hS' hcs
    have hstep : step natives bc0 u = Outcome.ret v := by
      simp [step, hu, decode_RETURN, exec, hS', hcs, val2int]
    refine ⟨hstep, ?_⟩
    intro m k s0 h0 hm
    exact execute_of_steps natives bc0 s0 u v m k h0 hm hstep

/-- C6 on `call_image`: the callee returns 5 to `main`. -/
theorem C6_call_return_witness :
    call_state.P[call_state.pc]? = some Opcode.INVOKESTATIC.code ∧
    steps no_natives call_image 2 call_state = some call_return_state ∧
    call_return_state.P[call_return_state.pc]? = some Opcode.RETURN.code ∧
    step no_natives call_image call_return_state
      = Outcome.next { S := [c0_value.int 5], P := call_state.P, pc := 5, V := [],
                       callStack := [], heap := [] } :=
  ⟨by decide, by decide, by decide,
    (C6_call_return no_natives call_image call_state 0 1
      { num_args := 1, num_vars := 1, code := [0x15, 0, 0xB0] } [c0_value.int 5] []
      1 call_return_state (c0_value.int 5)
      (by decide) (by decide) (by decide) (by decide) (by decide) (by decide) (by decide)
      (by decide)
      (by
        intro i w h1 h2 hw
        have hi : i = 1 ∨ i = 2 := by omega
        rcases hi with rfl | rfl
        · cases hw; decide
        · cases hw; decide)
      (by decide) (by decide) (by decide)).1⟩

/-- C7: for every `n <= 12`, `execute` on the two-function factorial image of
scenario S5 reaches, after `fact_steps n` iterations, the `RETURN` of `main`
with an empty call stack and `n!` on the operand stack, and then returns
`n!` (which is 1 for `n <= 1`), whatever fuel is left. -/
theorem C7_factorial (natives : native_table) (n : Nat) (hn : n ≤ 12) :
    ∃ s0 : State,
      initial_state (fact_image n) = some s0 ∧
      steps natives (fact_image n) (fact_steps n) s0 = some (fact_final n) ∧
      (fact_final n).callStack = [] ∧
      (fact_final n).P[(fact_final n).pc]? = some Opcode.RETURN.code ∧
      step natives (fact_image n) (fact_final n) = Outcome.ret (Nat.factorial n) ∧
      (∀ k, execute natives (fact_image n) (fact_steps n + 1 + k)
        = Outcome.ret (Nat.factorial n)) ∧
      (n ≤ 1 → Nat.factorial n = 1) := by
  have hs := fact_steps_eval natives n hn
  have hstep : step natives (fact_image n) (fact_final n) = Outcome.ret (Nat.factorial n) := rfl
  refine ⟨_, rfl, hs, rfl, rfl, hstep, ?_, ?_⟩
  · intro k
    exact execute_of_steps natives (fact_image n) _ _ _ _ k rfl hs hstep
  · intro h1
    interval_cases n <;> rfl

/-- C7 at `n = 5`: `execute` returns 120. -/
theorem C7_factorial_witness :
    5 ≤ 12 ∧ execute no_natives (fact_image 5) (fact_steps 5 + 1 + 0) = Outcome.ret 120 :=
  ⟨by decide,
    match C7_factorial no_natives 5 (by decide) with
    | ⟨_, _, _, _, _, _, h, _⟩ => h 0⟩

/-- C8: for 32-bit `x` (pushed first) and `y` (pushed last) outside the trap
cases, `IDIV` pushes the quotient `q` truncated toward zero (its magnitude is
the whole part of `|x| / |y|` and its sign is never opposed to that of
`x * y`) and `IREM` pushes the remainder `r` with `x = q * y + r`,
`|r| < |y|`, and `r` zero or of the sign of `x`. -/
theorem C8_idiv_irem_value (natives : native_table) (bc0 : bc0_file) (s : State)
    (x y : Int) (rest : List c0_value) (hx : isI32 x) (hy : isI32 y) (hy0 : y ≠ 0)
    (hov : ¬ (x = INT_MIN ∧ y = -1)) :
    ∃ q r : Int,
      exec natives bc0 Opcode.IDIV { s with S := c0_value.int y :: c0_value.int x :: rest }
        = Outcome.next { s with pc := s.pc + 1, S := c0_value.int q :: rest } ∧
      exec natives bc0 Opcode.IREM { s with S := c0_value.int y :: c0_value.int x :: rest }
        = Outcome.next { s with pc := s.pc + 1, S := c0_value.int r :: rest } ∧
      isI32 q ∧ isI32 r ∧
      q.natAbs = x.natAbs / y.natAbs ∧ 0 ≤ q * x * y ∧
      x = q * y + r ∧ r.natAbs < y.natAbs ∧
      (r = 0 ∨ (0 < r ∧ 0 < x) ∨ (r < 0 ∧ x < 0)) := by
  have hq := tdiv_isI32 x y hx hy0 hov
  have hr := tmod_isI32 x y hy hy0
  obtain ⟨f1, f2, f3, f4, f5⟩ := tdiv_tmod_facts x y hy0
  refine ⟨Int.tdiv x y, Int.tmod x y, ?_, ?_, hq, hr, f1, f2, f3, f4, f5⟩
  · simp [exec, hy0, hov, c_div, wrap32_of_isI32 _ hq, c0v_push, int2val]
  · simp [exec, hy0, hov, c_rem, wrap32_of_isI32 _ hr, c0v_push, int2val]

/-- C8 at `x = -7`, `y = 2`: the quotient is `-3` and the remainder `-1`. -/
theorem C8_idiv_irem_value_witness :
    isI32 (-7) ∧ isI32 2 ∧ (2 : Int) ≠ 0 ∧ ¬ ((-7 : Int) = INT_MIN ∧ (2 : Int) = -1) ∧
    ∃ q r : Int,
      exec no_natives S3_image Opcode.IDIV
          { stack_state [] with S := c0_value.int 2 :: c0_value.int (-7) :: [] }
        = Outcome.next { stack_state [] with
            pc := (stack_state []).pc + 1, S := c0_value.int q :: [] } ∧
      exec no_natives S3_image Opcode.IREM
          { stack_state [] with S := c0_value.int 2 :: c0_value.int (-7) :: [] }
        = Outcome.next { stack_state [] with
            pc := (stack_state []).pc + 1, S := c0_value.int r :: [] } ∧
      isI32 q ∧ isI32 r ∧
      q.natAbs = (-7 : Int).natAbs / (2 : Int).natAbs ∧ 0 ≤ q * (-7) * 2 ∧
      (-7 : Int) = q * 2 + r ∧ r.natAbs < (2 : Int).natAbs ∧
      (r = 0 ∨ (0 < r ∧ 0 < (-7 : Int)) ∨ (r < 0 ∧ (-7 : Int) < 0)) :=
  ⟨by decide, by decide, by decide, by decide,
    C8_idiv_irem_value no_natives S3_image (stack_state []) (-7) 2 [] (by decide) (by decide)
      (by decide) (by decide)⟩

/-- C9: with `x` pushed first and `y` pushed last, `ISHL` and `ISHR` raise the
arithmetic trap exactly when `y < 0` or `y >= 32` and raise no trap
otherwise; otherwise `ISHL` pushes `x * 2^y` reduced modulo `2^32` and read as
a signed 32-bit integer, and `ISHR` pushes the floor of `x / 2^y`. -/
theorem C9_shift_trap_and_value (natives : native_table) (bc0 : bc0_file) (s : State)
    (x y : Int) (rest : List c0_value) (hx : isI32 x) :
    ((exec natives bc0 Opcode.ISHL
        { s with S := c0_value.int y :: c0_value.int x :: rest }).isArithTrap = true
      ↔ (y < 0 ∨ y ≥ 32)) ∧
    ((exec natives bc0 Opcode.ISHL
        { s with S := c0_value.int y :: c0_value.int x :: rest }).isTrap = true
      ↔ (y < 0 ∨ y ≥ 32)) ∧
    ((exec natives bc0 Opcode.ISHR
        { s with S := c0_value.int y :: c0_value.int x :: rest }).isArithTrap = true
      ↔ (y < 0 ∨ y ≥ 32)) ∧
    ((exec natives bc0 Opcode.ISHR
        { s with S := c0_value.int y :: c0_value.int x :: rest }).isTrap = true
      ↔ (y < 0 ∨ y ≥ 32)) ∧
    (¬ (y < 0 ∨ y ≥ 32) →
      exec natives bc0 Opcode.ISHL { s with S := c0_value.int y :: c0_value.int x :: rest }
        = Outcome.next { s with pc := s.pc + 1,
                                S := c0_value.int (wrap32 (x * 2 ^ y.toNat)) :: rest } ∧
      exec natives bc0 Opcode.ISHR { s with S := c0_value.int y :: c0_value.int x :: rest }
        = Outcome.next { s with pc := s.pc + 1,
                                S := c0_value.int (Int.fdiv x (2 ^ y.toNat)) :: rest }) := by
  by_cases hy : y < 0 ∨ y ≥ 32
  · have hc : ¬ (y < 32 ∧ 0 ≤ y) := by omega
    simp [exec, hy, hc, Outcome.isArithTrap, Outcome.isTrap]
  · have hy' : ¬ (y ≥ 32 ∨ y < 0) := fun h => hy h.symm
    have hn : y.toNat < 32 := by omega
    have hshl : c_shl x y = wrap32 (x * 2 ^ y.toNat) := c_shl_eq x y.toNat
    have hshr : c_shr x y = Int.fdiv x (2 ^ y.toNat) := by
      rw [Int.fdiv_eq_ediv _ (by positivity)]
      unfold c_shr
      by_cases h0 : x < 0
      · rw [if_pos h0]; exact c_shr_neg x y.toNat hx h0 hn
      · rw [if_neg h0]; exact c_shr_nonneg x y.toNat hx (by omega)
    refine ⟨?_, ?_, ?_, ?_, fun _ => ⟨?_, ?_⟩⟩
    · simp only [exec, pop_int_cons, if_pos hy', Outcome.isArithTrap]; simp [hy]
    · simp only [exec, pop_int_cons, if_pos hy', Outcome.isTrap]; simp [hy]
    · simp only [exec, pop_int_cons, if_pos hy', Outcome.isArithTrap]; simp [hy]
    · simp only [exec, pop_int_cons, if_pos hy', Outcome.isTrap]; simp [hy]
    · simp only [exec, pop_int_cons, if_pos hy', c0v_push, int2val, hshl]
    · simp only [exec, pop_int_cons, if_pos hy', c0v_push, int2val, hshr]

/-- C9 at `x = -8`, `y = 1`. -/
theorem C9_shift_trap_and_value_witness :
    isI32 (-8) ∧
    (exec no_natives S3_image Opcode.ISHL
        { stack_state [] with S := c0_value.int 1 :: c0_value.int (-8) :: [] }
      = Outcome.next { stack_state [] with pc := (stack_state []).pc + 1,
                                           S := c0_value.int (-16) :: [] } ∧
     exec no_natives S3_image Opcode.ISHR
        { stack_state [] with S := c0_value.int 1 :: c0_value.int (-8) :: [] }
      = Outcome.next { stack_state [] with pc := (stack_state []).pc + 1,
                                           S := c0_value.int (-4) :: [] }) :=
  ⟨by decide,
    (C9_shift_trap_and_value no_natives S3_image (stack_state []) (-8) 1 [] (by decide)).2.2.2.2
      (by decide)⟩

/-- C10: with 32-bit `x` pushed first and `y` pushed last, `IADD`, `ISUB` and
`IMUL` pop both and push `x + y`, `x - y` and `x * y` reduced modulo `2^32`
and read as a signed 32-bit integer (the pushed value is in range and
congruent to the exact result), without a trap; `IAND`, `IOR` and `IXOR` push
the value whose two's-complement bits are the and, or and exclusive or of the
bits of `x` and `y`. -/
theorem C10_arith_logic (natives : native_table) (bc0 : bc0_file) (s : State)
    (x y : Int) (rest : List c0_value) (hx : isI32 x) (hy : isI32 y) :
    (exec natives bc0 Opcode.IADD { s with S := c0_value.int y :: c0_value.int x :: rest }
      = Outcome.next { s with pc := s.pc + 1, S := c0_value.int (wrap32 (x + y)) :: rest }) ∧
    (exec natives bc0 Opcode.ISUB { s with S := c0_value.int y :: c0_value.int x :: rest }
      = Outcome.next { s with pc := s.pc + 1, S := c0_value.int (wrap32 (x - y)) :: rest }) ∧
    (exec natives bc0 Opcode.IMUL { s with S := c0_value.int y :: c0_value.int x :: rest }
      = Outcome.next { s with pc := s.pc + 1, S := c0_value.int (wrap32 (x * y)) :: rest }) ∧
    (∀ z : Int, isI32 (wrap32 z) ∧ (wrap32 z - z) % 4294967296 = 0 ∧
      (isI32 z → wrap32 z = z)) ∧
    (∃ a o e : Int,
      exec natives bc0 Opcode.IAND { s with S := c0_value.int y :: c0_value.int x :: rest }
        = Outcome.next { s with pc := s.pc + 1, S := c0_value.int a :: rest } ∧
      exec natives bc0 Opcode.IOR { s with S := c0_value.int y :: c0_value.int x :: rest }
        = Outcome.next { s with pc := s.pc + 1, S := c0_value.int o :: rest } ∧
      exec natives bc0 Opcode.IXOR { s with S := c0_value.int y :: c0_value.int x :: rest }
        = Outcome.next { s with pc := s.pc + 1, S := c0_value.int e :: rest } ∧
      isI32 a ∧ isI32 o ∧ isI32 e ∧
      (∀ i : Nat, a.testBit i = (x.testBit i && y.testBit i)) ∧
      (∀ i : Nat, o.testBit i = (x.testBit i || y.testBit i)) ∧
      (∀ i : Nat, e.testBit i = xor (x.testBit i) (y.testBit i))) := by
  refine ⟨rfl, rfl, rfl, fun z => ⟨isI32_wrap32 z, wrap32_congr z, wrap32_of_isI32 z⟩,
    c_and x y, c_or x y, c_xor x y, rfl, rfl, rfl, isI32_ofU32 _, isI32_ofU32 _,
    isI32_ofU32 _, c_and_testBit x y hx hy, c_or_testBit x y hx hy,
    c_xor_testBit x y hx hy⟩

/-- C10 at `x = 2147483647`, `y = 1`: the sum wraps to `INT_MIN`. -/
theorem C10_arith_logic_witness :
    isI32 2147483647 ∧ isI32 1 ∧
    exec no_natives S3_image Opcode.IADD
        { stack_state [] with S := c0_value.int 1 :: c0_value.int 2147483647 :: [] }
      = Outcome.next { stack_state [] with
          pc := (stack_state []).pc + 1,
          S := c0_value.int (wrap32 (2147483647 + 1)) :: [] } ∧
    wrap32 (2147483647 + 1) = -2147483648 :=
  ⟨by decide, by decide,
    (C10_arith_logic no_natives S3_image (stack_state []) 2147483647 1 [] (by decide)
      (by decide)).1, by decide⟩

/-- C12: with the condition `c` pushed first and the message pointer `m`
pushed last, `ASSERT` raises the assertion trap carrying `m` exactly when
`c = 0`, and raises no trap otherwise; when `c` is not 0 execution continues
at `pc + 1` with both operands removed.  The S8 program `BIPUSH 0; ALDC
"oops"; ASSERT` ends in the assertion trap whose message points at the
string `oops` of the string pool. -/
theorem C12_assert (natives : native_table) (bc0 : bc0_file) (s : State)
    (m : c0_ptr) (c : Int) (rest : List c0_value) :
    (exec natives bc0 Opcode.ASSERT { s with S := c0_value.ptr m :: c0_value.int c :: rest }
        = Outcome.trap (Trap.assertion m) ↔ c = 0) ∧
    ((exec natives bc0 Opcode.ASSERT
        { s with S := c0_value.ptr m :: c0_value.int c :: rest }).isTrap = true ↔ c = 0) ∧
    (c ≠ 0 →
      exec natives bc0 Opcode.ASSERT { s with S := c0_value.ptr m :: c0_value.int c :: rest }
        = Outcome.next { s with pc := s.pc + 1, S := rest }) ∧
    (∀ k, execute natives S8_image (3 + k)
      = Outcome.trap (Trap.assertion (c0_ptr.string_pool 0))) ∧
    c_string S8_image.string_pool 0 = ascii "oops" := by
  refine ⟨?_, ?_, ?_, ?_, by decide⟩
  · by_cases h : c = 0 <;> simp [exec, h]
  · by_cases h : c = 0 <;> simp [exec, h, Outcome.isTrap]
  · intro h; simp [exec, h]
  · intro k
    exact run_stable natives S8_image 3 k _ rfl

/-- C13: when the byte `P[pc]` is not an opcode of the encoding table, the
step ends execution with the invalid-opcode failure for that byte; each of
the six reserved extension opcodes is such a byte; and when the byte is an
opcode of the encoding table the step does not end in the invalid-opcode
failure (native functions raising none themselves). -/
theorem C13_invalid_opcode (natives : native_table) (bc0 : bc0_file) (s : State) (b : Nat)
    (hb : s.P[s.pc]? = some b) :
    (is_defined_opcode b = false →
      step natives bc0 s = Outcome.trap (Trap.invalid_opcode b) ∧
      ∀ k, run natives bc0 (1 + k) s = Outcome.trap (Trap.invalid_opcode b)) ∧
    (∀ op, op ∈ Opcode.reserved → is_defined_opcode op.code = false) ∧
    (∀ op, op ∈ Opcode.reserved → op.code = b →
      step natives bc0 s = Outcome.trap (Trap.invalid_opcode b)) ∧
    (natives_ok natives → is_defined_opcode b = true →
      (step natives bc0 s).isInvalidOpcode = false) := by
  have hres : ∀ op, op ∈ Opcode.reserved → is_defined_opcode op.code = false := by decide
  have hundef : is_defined_opcode b = false →
      step natives bc0 s = Outcome.trap (Trap.invalid_opcode b) := by
    intro hd
    rcases decode_undefined b hd with h | ⟨op, h, hr, hc⟩
    · simp only [step, hb, h]
    · simp only [step, hb, h]
      subst hc
      simp only [Opcode.reserved, List.mem_cons, List.mem_singleton, List.not_mem_nil,
        or_false] at hr
      rcases hr with rfl | rfl | rfl | rfl | rfl | rfl <;> rfl
  refine ⟨fun hd => ⟨hundef hd, fun k => ?_⟩, hres, fun op hop hc => ?_, fun hn hd => ?_⟩
  · rw [Nat.add_comm]
    simp only [run, hundef hd]
  · exact hundef (hc ▸ hres op hop)
  · obtain ⟨op, hdec, hnr, _⟩ := decode_defined b hd
    simp only [step, hb, hdec]
    exact exec_not_invalid natives bc0 op s hn hnr

/-- C13 on the reserved opcode `CHECKTAG`. -/
theorem C13_invalid_opcode_witness :
    (byte_code_state 0xC0).P[(byte_code_state 0xC0).pc]? = some 0xC0 ∧
    is_defined_opcode 0xC0 = false ∧
    step no_natives S3_image (byte_code_state 0xC0)
      = Outcome.trap (Trap.invalid_opcode 0xC0) :=
  ⟨by decide, by decide,
    ((C13_invalid_opcode no_natives S3_image (byte_code_state 0xC0) 0xC0 (by decide)).1
      (by decide)).1⟩

/-- C14: for bytes `a` and `b`, `execute` on the entry body `BIPUSH a;
RETURN` returns the sign extension of `a` (`a` below 128, `a - 256` from 128
on), and on `BIPUSH a; BIPUSH b; IADD; RETURN` the sum of the two sign
extensions; S1 returns 42 and S2 returns 12. -/
theorem C14_bipush_return (natives : native_table) (a b : Nat) (ha : a < 256)
    (hb : b < 256) :
    (∀ k, execute natives (push_image a) (2 + k) = Outcome.ret (sext8 a)) ∧
    sext8 a = (if a < 128 then (a : Int) else (a : Int) - 256) ∧
    (∀ k, execute natives (add_image a b) (4 + k) = Outcome.ret (sext8 a + sext8 b)) ∧
    (∀ k, execute natives (push_image 42) (2 + k) = Outcome.ret 42) ∧
    (∀ k, execute natives (add_image 5 7) (4 + k) = Outcome.ret 12) := by
  have hsa : sext8 a = (if a < 128 then (a : Int) else (a : Int) - 256) := by
    unfold sext8
    rw [Nat.mod_eq_of_lt ha]
  have hsb : sext8 b = (if b < 128 then (b : Int) else (b : Int) - 256) := by
    unfold sext8
    rw [Nat.mod_eq_of_lt hb]
  have hsum : wrap32 (sext8 a + sext8 b) = sext8 a + sext8 b := by
    apply wrap32_of_isI32
    rw [hsa, hsb]
    unfold isI32
    split <;> split <;> omega
  refine ⟨fun k => run_stable natives (push_image a) 2 k _ rfl, hsa, fun k => ?_,
    fun k => run_stable natives (push_image 42) 2 k _ rfl,
    fun k => run_stable natives (add_image 5 7) 4 k _ rfl⟩
  have h4 : execute natives (add_image a b) 4 = Outcome.ret (wrap32 (sext8 a + sext8 b)) := rfl
  rw [← hsum, ← h4]
  exact run_stable natives (add_image a b) 4 k _ rfl

/-- C14 at `a = 200`, `b = 100`: the byte 200 is pushed as `-56`. -/
theorem C14_bipush_return_witness :
    200 < 256 ∧ 100 < 256 ∧
    execute no_natives (push_image 200) (2 + 0) = Outcome.ret (sext8 200) ∧
    sext8 200 = -56 ∧
    execute no_natives (add_image 200 100) (4 + 0) = Outcome.ret (sext8 200 + sext8 100) :=
  ⟨by decide, by decide,
    (C14_bipush_return no_natives 200 100 (by decide) (by decide)).1 0, by decide,
    (C14_bipush_return no_natives 200 100 (by decide) (by decide)).2.2.1 0⟩

/-- C15: for every opcode other than the branch family, `INVOKESTATIC` and
`RETURN`, when the step completes without stopping the loop the new `pc` is
the old one plus the instruction length of the encoding table: 1, 2 or 3 for
the opcodes listed. -/
theorem C15_pc_advance (natives : native_table) (bc0 : bc0_file) (s s' : State)
    (b : Nat) (op : Opcode) (hb : s.P[s.pc]? = some b) (hdec : decode b = some op)
    (hop : op ∉ Opcode.assigns_pc) (hstep : step natives bc0 s = Outcome.next s') :
    (∃ len, instr_length op = some len ∧ s'.pc = s.pc + len) ∧
    (∀ o, o ∈ [Opcode.NOP, .POP, .DUP, .SWAP, .IADD, .ISUB, .IMUL, .IDIV, .IREM, .IAND, .IOR,
        .IXOR, .ISHL, .ISHR, .ACONST_NULL, .ASSERT, .IMLOAD, .IMSTORE, .AMLOAD, .AMSTORE,
        .CMLOAD, .CMSTORE, .ARRAYLENGTH, .AADDS] → instr_length o = some 1) ∧
    (∀ o, o ∈ [Opcode.BIPUSH, .VLOAD, .VSTORE, .NEW, .NEWARRAY, .AADDF] →
      instr_length o = some 2) ∧
    (∀ o, o ∈ [Opcode.ILDC, .ALDC, .INVOKENATIVE] → instr_length o = some 3) := by
  refine ⟨?_, by decide, by decide, by decide⟩
  simp only [step, hb, hdec] at hstep
  exact exec_pc_advance natives bc0 op s s' hop hstep

/-- C15 on `NOP`: the step advances `pc` from 0 to 1. -/
theorem C15_pc_advance_witness :
    (byte_code_state 0).P[(byte_code_state 0).pc]? = some 0 ∧
    decode 0 = some Opcode.NOP ∧
    step no_natives S3_image (byte_code_state 0)
      = Outcome.next { byte_code_state 0 with pc := 1 } ∧
    ∃ len, instr_length Opcode.NOP = some len ∧
      ({ byte_code_state 0 with pc := 1 } : State).pc = (byte_code_state 0).pc + len :=
  ⟨by decide, by decide, by decide,
    (C15_pc_advance no_natives S3_image (byte_code_state 0)
      { byte_code_state 0 with pc := 1 } 0 Opcode.NOP (by decide) (by decide) (by decide)
      (by decide)).1⟩

/-- C16 on the code: after `INVOKESTATIC` the new local vector has exactly
`num_vars` slots and its first `num_args` slots hold the arguments, but the
other slots come from `xmalloc` and are uninitialised, not zero: in
`local_image` the callee's only local is uninitialised and `VLOAD 0` reads
it, with no defined result, while the entry frame's locals come from
`xcalloc` and the same body as entry function returns 0. -/
theorem C16_call_locals_uninitialised :
    (∀ (natives : native_table) (bc0 : bc0_file) (s : State) (hi lo : Nat)
        (g : function_info) (args rest : List c0_value),
      s.P[s.pc]? = some Opcode.INVOKESTATIC.code →
      s.P[s.pc + 1]? = some hi → s.P[s.pc + 2]? = some lo →
      bc0.function_pool[imm16 hi lo]? = some g →
      args.length = g.num_args → g.num_args ≤ g.num_vars → s.S = args.reverse ++ rest →
      ∃ s' : State, step natives bc0 s = Outcome.next s' ∧
        s'.V.length = g.num_vars ∧
        s'.V = args.map some ++ List.replicate (g.num_vars - g.num_args) none) ∧
    (∀ (bc0 : bc0_file) (f : function_info) (s0 : State),
      bc0.function_pool[0]? = some f → initial_state bc0 = some s0 →
      s0.V = List.replicate f.num_vars (some zero_value)) ∧
    steps no_natives local_image 1
        { S := [], P := [0xB8, 0, 1, 0xB0], pc := 0, V := [], callStack := [], heap := [] }
      = some { S := [], P := [0x15, 0, 0xB0], pc := 0, V := [none],
               callStack := [{ S := [], P := [0xB8, 0, 1, 0xB0], pc := 3, V := [] }],
               heap := [] } ∧
    execute no_natives local_image 2 = Outcome.undefined ∧
    execute no_natives entry_local_image 2 = Outcome.ret 0 := by
  refine ⟨?_, ?_, by decide, by decide, by decide⟩
  · intro natives bc0 s hi lo g args rest hop hhi hlo hg hk hkv hS
    have hpa := pop_args_spec args rest (List.replicate g.num_vars none) (by simp; omega)
    rw [hk] at hpa
    simp only [List.drop_replicate] at hpa
    refine ⟨{ S := [], P := g.code, pc := 0,
              V := args.map some ++ List.replicate (g.num_vars - g.num_args) none,
              callStack := { S := rest, P := s.P, pc := s.pc + 3, V := s.V } :: s.callStack,
              heap := s.heap }, ?_, ?_, rfl⟩
    · simp only [step, hop, decode_INVOKESTATIC, exec, read_code, hhi, hlo, hg, hS, hpa]
    · simp; omega
  · intro bc0 f s0 hf h0
    simp only [initial_state, hf, Option.some.injEq] at h0
    rw [← h0]

/-- C17 on the code: `CMLOAD` reads the four bytes at `a` as an `int`, so the
value pushed depends on the bytes at `a+1`, `a+2` and `a+3` and can exceed
255: with the bytes 1, 2, 0, 0 at `a` it pushes 513, and `char_image`, which
stores the characters 1 and 2 next to each other and loads the first,
returns 513; on a cell of a single byte the read leaves the cell. -/
theorem C17_cmload_reads_four_bytes :
    (∀ (natives : native_table) (bc0 : bc0_file) (s : State) (rest : List c0_value)
        (b0 b1 b2 b3 : Nat),
      exec natives bc0 Opcode.CMLOAD
          { s with S := c0_value.ptr (c0_ptr.cell 0 0) :: rest,
                   heap := [heap_obj.raw [mem_byte.byte b0, mem_byte.byte b1,
                                          mem_byte.byte b2, mem_byte.byte b3]] }
        = Outcome.next
          { s with pc := s.pc + 1,
                   S := c0_value.int (ofU32 (b0 + 256 * b1 + 65536 * b2 + 16777216 * b3))
                        :: rest,
                   heap := [heap_obj.raw [mem_byte.byte b0, mem_byte.byte b1,
                                          mem_byte.byte b2, mem_byte.byte b3]] }) ∧
    ofU32 (1 + 256 * 2 + 65536 * 0 + 16777216 * 0) = 513 ∧
    ofU32 (1 + 256 * 0 + 65536 * 0 + 16777216 * 0) = 1 ∧
    execute no_natives char_image 10 = Outcome.ret 513 ∧
    execute no_natives char_cell_image 3 = Outcome.undefined := by
  refine ⟨?_, by decide, by decide, by decide, by decide⟩
  intro natives bc0 s rest b0 b1 b2 b3
  simp [exec, load, read_bytes, int_of_bytes, c0v_push, int2val]

/-- C18: when the popped pointer operand is `NULL`, each of `IMLOAD`,
`IMSTORE`, `AMLOAD`, `AMSTORE`, `CMSTORE`, `AADDF` and `AADDS` raises the
memory trap, so no load, store or push takes place; when it is not `NULL`,
none of `IMLOAD`, `IMSTORE`, `AMLOAD`, `AMSTORE`, `CMSTORE` raises a trap and
`AADDF f` pushes the pointer advanced by the unsigned byte `f`. -/
theorem C18_null_checks (natives : native_table) (bc0 : bc0_file) (s : State)
    (rest : List c0_value) (w : Int) (q a : c0_ptr) (f : Nat)
    (hf : s.P[s.pc + 1]? = some f) (ha : a ≠ c0_ptr.null) :
    (exec natives bc0 Opcode.IMLOAD { s with S := c0_value.ptr c0_ptr.null :: rest }
      = Outcome.trap (Trap.memory "NULL pointer")) ∧
    (exec natives bc0 Opcode.IMSTORE
        { s with S := c0_value.int w :: c0_value.ptr c0_ptr.null :: rest }
      = Outcome.trap (Trap.memory "NULL pointer")) ∧
    (exec natives bc0 Opcode.AMLOAD { s with S := c0_value.ptr c0_ptr.null :: rest }
      = Outcome.trap (Trap.memory "NULL pointer")) ∧
    (exec natives bc0 Opcode.AMSTORE
        { s with S := c0_value.ptr q :: c0_value.ptr c0_ptr.null :: rest }
      = Outcome.trap (Trap.memory "NULL pointer")) ∧
    (exec natives bc0 Opcode.CMSTORE
        { s with S := c0_value.int w :: c0_value.ptr c0_ptr.null :: rest }
      = Outcome.trap (Trap.memory "NULL pointer")) ∧
    (exec natives bc0 Opcode.AADDF { s with S := c0_value.ptr c0_ptr.null :: rest }
      = Outcome.trap (Trap.memory "NULL pointer")) ∧
    (exec natives bc0 Opcode.AADDS
        { s with S := c0_value.int w :: c0_value.ptr c0_ptr.null :: rest }
      = Outcome.trap (Trap.memory "NULL pointer")) ∧
    (exec natives bc0 Opcode.IMLOAD { s with S := c0_value.ptr a :: rest }).isTrap = false ∧
    (exec natives bc0 Opcode.IMSTORE
        { s with S := c0_value.int w :: c0_value.ptr a :: rest }).isTrap = false ∧
    (exec natives bc0 Opcode.AMLOAD { s with S := c0_value.ptr a :: rest }).isTrap = false ∧
    (exec natives bc0 Opcode.AMSTORE
        { s with S := c0_value.ptr q :: c0_value.ptr a :: rest }).isTrap = false ∧
    (exec natives bc0 Opcode.CMSTORE
        { s with S := c0_value.int w :: c0_value.ptr a :: rest }).isTrap = false ∧
    (exec natives bc0 Opcode.AADDF { s with S := c0_value.ptr a :: rest }
      = Outcome.next { s with pc := s.pc + 2, S := c0_value.ptr (ptr_add a f) :: rest }) ∧
    (∀ (b : Nat) (off : Int), ptr_add (c0_ptr.cell b off) f = c0_ptr.cell b (off + f)) ∧
    (∀ off : Int, ptr_add (c0_ptr.string_pool off) f = c0_ptr.string_pool (off + f)) := by
  refine ⟨?_, ?_, ?_, ?_, ?_, ?_, ?_, ?_, ?_, ?_, ?_, ?_, ?_, fun _ _ => rfl, fun _ => rfl⟩
  · simp [exec]
  · simp [exec]
  · simp [exec]
  · simp [exec]
  · simp [exec]
  · simp [exec, read_code, hf]
  · simp [exec]
  · simp only [exec, pop_ptr_cons, if_neg ha]; split <;> rfl
  · simp only [exec, pop_int_cons, pop_ptr_cons, if_neg ha]; split <;> rfl
  · simp only [exec, pop_ptr_cons, if_neg ha]; split <;> rfl
  · simp only [exec, pop_ptr_cons, if_neg ha]; split <;> rfl
  · simp only [exec, pop_int_cons, pop_ptr_cons, if_neg ha]; split <;> rfl
  · simp [exec, read_code, hf, ha, c0v_push, ptr2val]

/-- C18 on `AADDF 8` with a pointer to the start of cell 0. -/
theorem C18_null_checks_witness :
    aaddf_state.P[aaddf_state.pc + 1]? = some 8 ∧ c0_ptr.cell 0 0 ≠ c0_ptr.null ∧
    exec no_natives S3_image Opcode.AADDF
        { aaddf_state with S := c0_value.ptr c0_ptr.null :: [] }
      = Outcome.trap (Trap.memory "NULL pointer") ∧
    exec no_natives S3_image Opcode.AADDF
        { aaddf_state with S := c0_value.ptr (c0_ptr.cell 0 0) :: [] }
      = Outcome.next { aaddf_state with
          pc := aaddf_state.pc + 2,
          S := c0_value.ptr (ptr_add (c0_ptr.cell 0 0) 8) :: [] } :=
  ⟨by decide, by decide,
    (C18_null_checks no_natives S3_image aaddf_state [] 0 c0_ptr.null (c0_ptr.cell 0 0) 8
      (by decide) (by decide)).2.2.2.2.2.1,
    (C18_null_checks no_natives S3_image aaddf_state [] 0 c0_ptr.null (c0_ptr.cell 0 0) 8
      (by decide) (by decide)).2.2.2.2.2.2.2.2.2.2.2.2.1⟩

/-- C19: when the current instruction is `GOTO` with both immediate bytes 0
(and `pc` is a `size_t`), one step leaves the whole machine state unchanged,
so after any number of iterations the loop is still running in that state:
it has neither returned a value nor trapped. -/
theorem C19_goto_self (natives : native_table) (bc0 : bc0_file) (s : State)
    (hop : s.P[s.pc]? = some Opcode.GOTO.code)
    (h1 : s.P[s.pc + 1]? = some 0) (h2 : s.P[s.pc + 2]? = some 0)
    (hpc : s.pc < 18446744073709551616) :
    sext16 (imm16 0 0) = 0 ∧
    step natives bc0 s = Outcome.next s ∧
    (∀ n, run natives bc0 n s = Outcome.next s) ∧
    (∀ n v, run natives bc0 n s ≠ Outcome.ret v) ∧
    (∀ n t, run natives bc0 n s ≠ Outcome.trap t) := by
  have hd : decode Opcode.GOTO.code = some Opcode.GOTO := by decide
  have hz : sext16 (imm16 0 0) = 0 := by decide
  have hj : jump s.pc 0 = s.pc := by unfold jump; omega
  have hstep : step natives bc0 s = Outcome.next s := by
    simp only [step, hop, hd, exec, read_code, h1, h2, hz, hj]
  have hrun : ∀ n, run natives bc0 n s = Outcome.next s := by
    intro n
    induction n with
    | zero => rfl
    | succ n ih => simp only [run, hstep, ih]
  refine ⟨hz, hstep, hrun, fun n v => ?_, fun n t => ?_⟩
  · rw [hrun n]; exact fun hh => by cases hh
  · rw [hrun n]; exact fun hh => by cases hh

/-- C19 on the body `GOTO 0 0`. -/
theorem C19_goto_self_witness :
    goto_self_state.P[goto_self_state.pc]? = some Opcode.GOTO.code ∧
    goto_self_state.P[goto_self_state.pc + 1]? = some 0 ∧
    goto_self_state.P[goto_self_state.pc + 2]? = some 0 ∧
    goto_self_state.pc < 18446744073709551616 ∧
    run no_natives S3_image 1000 goto_self_state = Outcome.next goto_self_state :=
  ⟨by decide, by decide, by decide, by decide,
    (C19_goto_self no_natives S3_image goto_self_state (by decide) (by decide) (by decide)
      (by decide)).2.2.1 1000⟩

/-- C20: with the pointer `a` pushed first and `x` pushed last, `a` pointing
at a byte of a heap cell, `CMSTORE` pops both and stores the byte `x & 0x7F`
at `a`: the stored byte is the residue of `x` modulo 128, so it lies in
0..127 whatever `x` is, and every other byte of the heap is unchanged. -/
theorem C20_cmstore (natives : native_table) (bc0 : bc0_file) (s : State) (x : Int)
    (b : Nat) (off : Int) (bytes : List mem_byte) (rest : List c0_value)
    (hblk : s.heap[b]? = some (heap_obj.raw bytes))
    (hoff : 0 ≤ off ∧ off.toNat < bytes.length) :
    ∃ (v : Nat) (H' : Heap) (bytes' : List mem_byte),
      v = toU32 x &&& 0x7F ∧ (v : Int) = x % 128 ∧ v < 128 ∧
      exec natives bc0 Opcode.CMSTORE
          { s with S := c0_value.int x :: c0_value.ptr (c0_ptr.cell b off) :: rest }
        = Outcome.next { s with pc := s.pc + 1, S := rest, heap := H' } ∧
      H'[b]? = some (heap_obj.raw bytes') ∧
      (∀ b', b' ≠ b → H'[b']? = s.heap[b']?) ∧
      bytes'[off.toNat]? = some (mem_byte.byte v) ∧
      (∀ j, j ≠ off.toNat → bytes'[j]? = bytes[j]?) ∧
      bytes'.length = bytes.length ∧ H'.length = s.heap.length := by
  obtain ⟨hb1, hb2, hb3⟩ := cmstore_byte x
  have hblt : b < s.heap.length := by
    by_contra hc
    rw [List.getElem?_eq_none (by omega)] at hblk
    cases hblk
  have hwr : write_bytes bytes off [mem_byte.byte (toU32 x &&& 127)]
      = some (bytes.set off.toNat (mem_byte.byte (toU32 x &&& 127))) := by
    have hlen : off.toNat + 1 ≤ bytes.length := by omega
    simp only [write_bytes, List.length_singleton, hoff.1, hlen, and_self, if_true,
      Option.some.injEq]
    rw [List.set_eq_take_append_cons_drop, if_pos hoff.2]
    simp
  refine ⟨toU32 x &&& 127, s.heap.set b (heap_obj.raw
      (bytes.set off.toNat (mem_byte.byte (toU32 x &&& 127)))),
    bytes.set off.toNat (mem_byte.byte (toU32 x &&& 127)), rfl, hb2, hb3, ?_, ?_, ?_, ?_, ?_,
    ?_, ?_⟩
  · simp only [exec, pop_int_cons, pop_ptr_cons, store, hblk, hb1, hwr]
    simp
  · exact List.getElem?_set_self hblt
  · intro b' hne
    exact List.getElem?_set_ne (Ne.symm hne)
  · exact List.getElem?_set_self hoff.2
  · intro j hne
    exact List.getElem?_set_ne (Ne.symm hne)
  · simp
  · simp

/-- C20 at `x = -1` on a cell holding `0xFF`: the byte stored is 127. -/
theorem C20_cmstore_witness :
    cell_state.heap[0]? = some (heap_obj.raw [mem_byte.byte 0xFF]) ∧
    ∃ (v : Nat) (H' : Heap),
      v = 127 ∧
      exec no_natives S3_image Opcode.CMSTORE
          { cell_state with S := c0_value.int (-1) :: c0_value.ptr (c0_ptr.cell 0 0) :: [] }
        = Outcome.next { cell_state with pc := cell_state.pc + 1, S := [], heap := H' } ∧
      H'[0]? = some (heap_obj.raw [mem_byte.byte v]) :=
  ⟨by decide,
    match C20_cmstore no_natives S3_image cell_state (-1) 0 0 [mem_byte.byte 0xFF] []
        (by decide) ⟨by decide, by decide⟩ with
    | ⟨v, H', bytes', hv, _, _, hex, hH, _, hb, _, hlen, _⟩ => by
      have hv' : v = 127 := by rw [hv]; decide
      refine ⟨v, H', hv', hex, ?_⟩
      rw [hH]
      have h1 : bytes'.length = 1 := by simpa using hlen
      match bytes', h1, hb with
      | [y], _, hb => simp at hb; rw [hb]⟩

end C0VM
